import Mathlib

/-!
# Skybolt DIS component: type resolver, entity table and dead reckoning

A shallow embedding of `DisClient.h`, `DisClient.cpp` and `DisComponentPlugin.cpp`
(directory `SkyboltEnginePlugins/DisComponent`), followed by theorems about it.

Conventions of the embedding:

* the fields of `DIS::EntityType` and `DIS::EntityID` are unsigned integers and are
  compared after integer promotion, so they are natural numbers here;
* `size_t` values are natural numbers and every `size_t` operation is reduced modulo
  `2 ^ 64` explicitly;
* reading `mDisTemplates[i]` with `i` past the end is undefined behaviour in C++; the
  embedding stops there with the fault `Outcome.outOfRange i`;
* loops run on explicit fuel; the fuel supplied by `TemplateLookup` is sufficient on
  every catalog of fewer than `2 ^ 63` entries (`TemplateLookup_terminates`), which is
  every catalog a `std::vector` can hold;
* the member `mEntities` is a `std::map`, which is library code. It is embedded twice:
  as a search tree (`EntityTree`), on which the loop of `update` is studied, and as
  the red-black tree of GNU libstdc++ 12 as it lies in memory (`RbTree`, with the
  client `Rb.DisClient` on it), which decides where a table entry ends up once the
  comparator has misled an insertion;
* vectors have rational coordinates (exact arithmetic; rounding is not modelled);
* the transport and the PDU codec are outside the embedding: `update` receives the
  decoded entity-state PDUs of the datagram of the tick.
-/

namespace Skybolt

/-! ## Entity type descriptors and their comparison -/

/-- The seven fields of `DIS::EntityType`, most significant first. -/
structure EntityType where
  kind : Nat
  domain : Nat
  country : Nat
  category : Nat
  subcategory : Nat
  specific : Nat
  extra : Nat
deriving DecidableEq

/-- A default-constructed `DIS::EntityType`: every field is zero. -/
def EntityType.zero : EntityType := ⟨0, 0, 0, 0, 0, 0, 0⟩

/-- The functor `DisEntityTypeCompare::operator()` of `DisClient.h`: a disjunction of
seven field-wise `<` tests. -/
def DisEntityTypeCompare (a b : EntityType) : Bool :=
  decide (a.kind < b.kind) ||
  decide (a.domain < b.domain) ||
  decide (a.country < b.country) ||
  decide (a.category < b.category) ||
  decide (a.subcategory < b.subcategory) ||
  decide (a.specific < b.specific) ||
  decide (a.extra < b.extra)

/-- The tuple `(kind, domain, country, category, subcategory, specific, extra)`. -/
def EntityType.fields (a : EntityType) : List Nat :=
  [a.kind, a.domain, a.country, a.category, a.subcategory, a.specific, a.extra]

/-- Strict lexicographic comparison of two field lists: the first position where
they differ decides. -/
def lexLtFields : List Nat → List Nat → Bool
  | x :: xs, y :: ys => if x < y then true else if y < x then false else lexLtFields xs ys
  | _, _ => false

/-- The order the specification asks for: strict lexicographic order on the 7-tuple
of fields (`a` precedes `b` at the first field where they differ). -/
def lexLt (a b : EntityType) : Bool := lexLtFields a.fields b.fields

/-- Non-strict lexicographic order on descriptors: `compare(a, b) <= 0`. -/
def lexLe (a b : EntityType) : Bool := !lexLt b a

/-! ## The template catalog and `TemplateLookup` -/

/-- The member `mDisTemplates`: a vector of `(EntityType, template name)` pairs. -/
abbrev Catalog := List (EntityType × String)

/-- The modulus of `size_t` arithmetic. -/
def SIZE_MOD : Nat := 18446744073709551616

/-- Unsigned `size_t` addition. -/
def sizeAdd (a b : Nat) : Nat := (a + b) % SIZE_MOD

/-- Unsigned `size_t` subtraction of two `size_t` values (wraps around below zero). -/
def sizeSub (a b : Nat) : Nat := (SIZE_MOD + a - b) % SIZE_MOD

/-- How a run of the embedded code ends: with a value, by reading the catalog at an
index past its end, or by exhausting the fuel of the embedding. -/
inductive Outcome (α : Type) where
  | value (a : α)
  | outOfRange (index : Nat)
  | outOfFuel
deriving DecidableEq

/-- Result of one run of the inner `while (low <= high)` loop. -/
inductive SearchResult where
  /-- The loop executed `return templateEntry.second` at index `mid`. -/
  | found (mid : Nat) (template : String)
  /-- The loop ended with `low > high`; these are the values of the two bounds. -/
  | notFound (low high : Nat)
  /-- The loop read `mDisTemplates[mid]` with `mid` past the end. -/
  | outOfRange (mid : Nat)
  | outOfFuel
deriving DecidableEq

/-- The inner loop of `TemplateLookup` (`DisClient.cpp`, lines 87 to 98), searching
for `type` between the bounds `low` and `high`. -/
def binarySearch (cat : Catalog) (type : EntityType) : Nat → Nat → Nat → SearchResult
  | 0, _, _ => SearchResult.outOfFuel
  | fuel + 1, low, high =>
    if low ≤ high then
      let mid := sizeAdd low high / 2
      match cat[mid]? with
      | none => SearchResult.outOfRange mid
      | some templateEntry =>
        if DisEntityTypeCompare templateEntry.1 type then
          binarySearch cat type fuel (sizeAdd mid 1) high
        else if DisEntityTypeCompare type templateEntry.1 then
          binarySearch cat type fuel low (sizeSub mid 1)
        else
          SearchResult.found mid templateEntry.2
    else
      SearchResult.notFound low high

/-- The `switch (retryIteration++)` of `TemplateLookup` (lines 100 to 128): the
search key after the field selected by `retryIteration` is zeroed, or `none` in the
`default` case, which sets `keepRetrying = false`. -/
def generalize (retryIteration : Nat) (type : EntityType) : Option EntityType :=
  match retryIteration with
  | 0 => some { type with extra := 0 }
  | 1 => some { type with specific := 0 }
  | 2 => some { type with subcategory := 0 }
  | 3 => some { type with country := 0 }
  | 4 => some { type with category := 0 }
  | 5 => some { type with domain := 0 }
  | 6 => some { type with kind := 0 }
  | _ => none

/-- One binary search of a run of `TemplateLookup`: the key searched, the bounds the
search started with and how it ended. -/
structure SearchRecord where
  key : EntityType
  low : Nat
  high : Nat
  result : SearchResult
deriving DecidableEq

/-- A run of `TemplateLookup`: the binary searches it made, in order, and the index
and template name it returned. -/
structure LookupRun where
  searches : List SearchRecord
  outcome : Outcome (Nat × String)

/-- The final statement `return mDisTemplates[0].second`. -/
def fallback (cat : Catalog) : Outcome (Nat × String) :=
  match cat[0]? with
  | some templateEntry => Outcome.value (0, templateEntry.2)
  | none => Outcome.outOfRange 0

/-- The outer loop `while (keepRetrying)` of `TemplateLookup` (lines 86 to 133)
followed by the final `return`. The state is the search key `type`, the counter
`retryIteration` and the two bounds; after a failed search only `low` is reset. -/
def retryLoop (cat : Catalog) : Nat → EntityType → Nat → Nat → Nat → LookupRun
  | 0, _, _, _, _ => ⟨[], Outcome.outOfFuel⟩
  | fuel + 1, type, retryIteration, low, high =>
    let result := binarySearch cat type (cat.length + 1) low high
    let record : SearchRecord := ⟨type, low, high, result⟩
    match result with
    | SearchResult.found mid template => ⟨[record], Outcome.value (mid, template)⟩
    | SearchResult.outOfRange mid => ⟨[record], Outcome.outOfRange mid⟩
    | SearchResult.outOfFuel => ⟨[record], Outcome.outOfFuel⟩
    | SearchResult.notFound _ high1 =>
      match generalize retryIteration type with
      | some type1 =>
        let rest := retryLoop cat fuel type1 (retryIteration + 1) 0 high1
        ⟨record :: rest.searches, rest.outcome⟩
      | none => ⟨[record], fallback cat⟩

/-- The run of `TemplateLookup(type)`: `low = 0`, `high = mDisTemplates.size() - 1`,
`retryIteration = 0`, then the retry loop (which makes at most eight searches). -/
def lookupRun (cat : Catalog) (type : EntityType) : LookupRun :=
  retryLoop cat 8 type 0 0 (sizeSub cat.length 1)

/-- The method `DisClient::TemplateLookup`: the template name returned for `type`. -/
def TemplateLookup (cat : Catalog) (type : EntityType) : Outcome String :=
  match (lookupRun cat type).outcome with
  | Outcome.value r => Outcome.value r.2
  | Outcome.outOfRange i => Outcome.outOfRange i
  | Outcome.outOfFuel => Outcome.outOfFuel

/-- The eight search keys of the specification: `d` and its successive
generalizations, zeroing `extra`, `specific`, `subcategory`, `country`, `category`,
`domain` and `kind` cumulatively in that order. -/
def generalizations (d : EntityType) : List EntityType :=
  [ d,
    ⟨d.kind, d.domain, d.country, d.category, d.subcategory, d.specific, 0⟩,
    ⟨d.kind, d.domain, d.country, d.category, d.subcategory, 0, 0⟩,
    ⟨d.kind, d.domain, d.country, d.category, 0, 0, 0⟩,
    ⟨d.kind, d.domain, 0, d.category, 0, 0, 0⟩,
    ⟨d.kind, d.domain, 0, 0, 0, 0, 0⟩,
    ⟨d.kind, 0, 0, 0, 0, 0, 0⟩,
    ⟨0, 0, 0, 0, 0, 0, 0⟩ ]

/-- The template of the first catalog entry whose descriptor is `key`. -/
def templateOf (cat : Catalog) (key : EntityType) : Option String :=
  (cat.find? (fun e => decide (e.1 = key))).map (fun e => e.2)

/-- The resolver of the specification: the template of the entry whose descriptor is
the first of the given keys that occurs in the catalog. -/
def firstMatch (cat : Catalog) : List EntityType → Option String
  | [] => none
  | key :: keys =>
    match templateOf cat key with
    | some t => some t
    | none => firstMatch cat keys

/-- The catalog is sorted ascending, without repeated descriptors, under the
lexicographic order. -/
def SortedLex (cat : Catalog) : Prop :=
  List.Pairwise (fun a b => lexLt a.1 b.1 = true) cat

instance (cat : Catalog) : Decidable (SortedLex cat) := by
  unfold SortedLex; infer_instance

/-- The catalog is sorted ascending under the non-strict lexicographic order:
`compare(a, b) <= 0` for entries `a` before `b`. -/
def SortedLexLe (cat : Catalog) : Prop :=
  List.Pairwise (fun a b => lexLe a.1 b.1 = true) cat

instance (cat : Catalog) : Decidable (SortedLexLe cat) := by
  unfold SortedLexLe; infer_instance

/-- Entry 0 of the catalog is the all-zero descriptor. -/
def ZeroFirst (cat : Catalog) : Prop :=
  (cat[0]?).map (fun e => e.1) = some EntityType.zero

instance (cat : Catalog) : Decidable (ZeroFirst cat) := by
  unfold ZeroFirst; infer_instance

/-- Consecutive searches of one run: the later search `r2` starts with `low = 0` and
with the upper bound the failed earlier search `r1` ended with, which is not above
the bound `r1` started with. -/
def CarriedOver (r1 r2 : SearchRecord) : Prop :=
  r2.low = 0 ∧ (∃ l, r1.result = SearchResult.notFound l r2.high) ∧ r2.high ≤ r1.high

/-- The function `PopulateDisTemplates` of `DisComponentPlugin.cpp`: five
`push_back` calls on the template list. -/
def PopulateDisTemplates (templateList : Catalog) : Catalog :=
  templateList ++
    [ (⟨0, 0, 0, 0, 0, 0, 0⟩, "DisUnknownEntity"),
      (⟨1, 0, 0, 0, 0, 0, 0⟩, "Frigate"),
      (⟨1, 1, 0, 1, 0, 0, 0⟩, "Shuttle"),
      (⟨1, 2, 0, 20, 0, 0, 0⟩, "SepecatJaguar"),
      (⟨1, 2, 225, 20, 2, 10, 0⟩, "UH60") ]

/-- The catalog of the resolver example of the specification. -/
def jaguarCatalog : Catalog :=
  [ (⟨0, 0, 0, 0, 0, 0, 0⟩, "Unknown"),
    (⟨1, 0, 0, 0, 0, 0, 0⟩, "Frigate"),
    (⟨1, 2, 0, 20, 0, 0, 0⟩, "Jaguar") ]

/-- A catalog with one template per entity kind and one for land platforms; it is
sorted ascending under the lexicographic order and starts with the all-zero entry. -/
def kindCatalog : Catalog :=
  [ (⟨0, 0, 0, 0, 0, 0, 0⟩, "DisUnknownEntity"),
    (⟨1, 1, 0, 0, 0, 0, 0⟩, "LandPlatform"),
    (⟨2, 0, 0, 0, 0, 0, 0⟩, "Munition"),
    (⟨3, 0, 0, 0, 0, 0, 0⟩, "LifeForm"),
    (⟨4, 0, 0, 0, 0, 0, 0⟩, "Environmental") ]

/-- A sorted catalog that lacks the all-zero entry. -/
def headlessCatalog : Catalog :=
  [ (⟨1, 0, 0, 0, 0, 0, 0⟩, "Frigate"),
    (⟨2, 0, 0, 0, 0, 0, 0⟩, "Munition") ]

/-- A two-entry catalog: the fallback entry and a munition template. -/
def munitionCatalog : Catalog :=
  [ (⟨0, 0, 0, 0, 0, 0, 0⟩, "DisUnknownEntity"),
    (⟨2, 0, 0, 0, 0, 0, 0⟩, "Munition") ]

/-! ## Entity identifiers, tracked entities and the world -/

/-- The three fields of `DIS::EntityID`. -/
structure EntityID where
  site : Nat
  application : Nat
  entity : Nat
deriving DecidableEq

/-- The functor `DisEntityIDCompare::operator()` of `DisClient.h`: a disjunction of
three field-wise `<` tests. -/
def DisEntityIDCompare (a b : EntityID) : Bool :=
  decide (a.site < b.site) ||
  decide (a.application < b.application) ||
  decide (a.entity < b.entity)

/-- The type `sim::Vector3`, with exact rational coordinates. -/
structure Vector3 where
  x : ℚ
  y : ℚ
  z : ℚ
deriving DecidableEq

/-- The zero vector. -/
def Vector3.zero : Vector3 := ⟨0, 0, 0⟩

/-- Values of `enum DeadReckoningModel`. The member `DisEntity::deadReckoning` is set
by a cast from the algorithm code of the PDU, so the embedding keeps the code. -/
abbrev DeadReckoningModel := Nat

namespace DeadReckoningModel

def Other : DeadReckoningModel := 0
def Static : DeadReckoningModel := 1
def FPW : DeadReckoningModel := 2
def RPW : DeadReckoningModel := 3
def RVW : DeadReckoningModel := 4
def FVW : DeadReckoningModel := 5
def FPB : DeadReckoningModel := 6
def RPB : DeadReckoningModel := 7
def RVB : DeadReckoningModel := 8
def FVB : DeadReckoningModel := 9

end DeadReckoningModel

/-- The struct `DisEntity`; `simEntity` is the handle of the world entity. -/
structure DisEntity where
  simEntity : Nat
  updatedThisFrame : Bool
  deadReckoning : DeadReckoningModel
  linearVelocity : Vector3
  linearAcceleration : Vector3
  angularVelocity : Vector3
deriving DecidableEq

/-- The orientation `Process` writes: it stands for the quaternion
`toGeocentric(LtpNedOrientation(quatFromEuler(euler)), geocentricToLatLon(anchor))`,
whose trigonometry is not modelled. -/
structure Orientation where
  euler : Vector3
  anchor : Vector3
deriving DecidableEq

/-- Modelled from the spec: an entity of the world collaborator (section 6), of
which the client sees the template it was created from, whether local dynamics
drive it, and its optional position and orientation. The classes `sim::Entity` and
`sim::World` are not among the sources. -/
structure SimEntity where
  templateName : String
  dynamicsEnabled : Bool
  position : Option Vector3
  orientation : Option Orientation
deriving DecidableEq

/-- Modelled from the spec: the world collaborator. Handles are natural numbers;
`count` entities have been created so far and `entity h` is the entity behind the
handle `h`. -/
structure World where
  count : Nat
  entity : Nat → SimEntity

/-- Modelled from the spec: a world in which no entity has been created. -/
def World.empty : World := ⟨0, fun _ => ⟨"", true, none, none⟩⟩

/-- Modelled from the spec: `createEntity(templateId) -> handle` followed by
`setDynamicsEnabled(handle, false)` and `addEntity`, as `Process` calls them (lines
220 to 225). The new entity gets the next unused handle; the two components
`Process` attaches to it carry no state that the client reads. -/
def createEntity (w : World) (templateName : String) : World × Nat :=
  (⟨w.count + 1, Function.update w.entity w.count ⟨templateName, false, none, none⟩⟩, w.count)

/-- Modelled from the spec: `getPosition(handle) -> optional<geocentricVector>`. -/
def getPosition (w : World) (h : Nat) : Option Vector3 := (w.entity h).position

/-- Modelled from the spec: `setPosition(handle, geocentricVector)`. -/
def setPosition (w : World) (h : Nat) (p : Vector3) : World :=
  ⟨w.count, Function.update w.entity h { w.entity h with position := some p }⟩

/-- Modelled from the spec: `setOrientation(handle, quaternion)`. -/
def setOrientation (w : World) (h : Nat) (o : Orientation) : World :=
  ⟨w.count, Function.update w.entity h { w.entity h with orientation := some o }⟩

/-! ## The entity table `mEntities` as a search tree

The member `mEntities` is a `std::map` ordered by `DisEntityIDCompare`. This section
keeps of the map what a binary search tree is made of: a lookup descends by calls of
the comparator as `_M_lower_bound` and `find` of GNU libstdc++ do, and an insertion
descends as `_M_get_insert_unique_pos` does and links the new node at the empty link
it reaches. The hint that `insert` passes since C++17, the header with its
`leftmost`, the parent pointers and the rebalancing are left out here; they are
embedded in the section on the tree in memory below. The theorems about the loop of
`update` are stated on the search tree, whose iteration visits every entry; in memory
they hold for the entries the iteration visits. -/

/-- The nodes of the map, each with a key and the `DisEntity` stored under it. -/
inductive EntityTree where
  | nil : EntityTree
  | node (left : EntityTree) (key : EntityID) (value : DisEntity) (right : EntityTree) :
      EntityTree
deriving DecidableEq

/-- A position in the tree: the turns from the root (`false` left, `true` right). -/
abbrev Path := List Bool

namespace EntityTree

/-- The key and value of the node at a position. -/
def get? : EntityTree → Path → Option (EntityID × DisEntity)
  | nil, _ => none
  | node _ k v _, [] => some (k, v)
  | node l _ _ _, false :: p => l.get? p
  | node _ _ _ r, true :: p => r.get? p

/-- Assignment through a pointer to the node at a position. -/
def modify (f : DisEntity → DisEntity) : EntityTree → Path → EntityTree
  | nil, _ => nil
  | node l k v r, [] => node l k (f v) r
  | node l k v r, false :: p => node (modify f l p) k v r
  | node l k v r, true :: p => node l k v (modify f r p)

/-- The entries in the order `begin()` to `end()` visits them. -/
def entries : EntityTree → List (EntityID × DisEntity)
  | nil => []
  | node l k v r => l.entries ++ (k, v) :: r.entries

/-- The descent of `_M_lower_bound`: at a node whose key does not compare below `k`
remember the node and go left, otherwise go right. The result is the position of the
last node remembered, or `none` for `end()`. -/
def lowerBound (k : EntityID) : EntityTree → Option Path
  | nil => none
  | node l key _ r =>
    if !DisEntityIDCompare key k then
      match lowerBound k l with
      | some p => some (false :: p)
      | none => some []
    else
      (lowerBound k r).map (fun p => true :: p)

/-- The member `find`: the lower bound `j` of `k`, unless `j == end()` or `k`
compares below the key of `j`. -/
def find (t : EntityTree) (k : EntityID) : Option Path :=
  match t.lowerBound k with
  | none => none
  | some p =>
    match t.get? p with
    | some (key, _) => if DisEntityIDCompare k key then none else some p
    | none => none

/-- The descent of `_M_get_insert_unique_pos`: go left where `k` compares below the
key of the node, right otherwise, down to an empty link. -/
def insertPath (k : EntityID) : EntityTree → Path
  | nil => []
  | node l key _ r =>
    if DisEntityIDCompare k key then false :: insertPath k l else true :: insertPath k r

/-- The part of a descent before its last turn to the right: the position of the
in-order predecessor of the empty link the descent ends at. -/
def beforeLastRight : Path → Option Path
  | [] => none
  | b :: p =>
    match beforeLastRight p with
    | some q => some (b :: q)
    | none => if b then some [] else none

/-- Linking a new node at the empty link a descent ends at. -/
def attach (k : EntityID) (v : DisEntity) : EntityTree → Path → EntityTree
  | nil, _ => node nil k v nil
  | node l key val r, [] => node l key val r
  | node l key val r, false :: p => node (attach k v l p) key val r
  | node l key val r, true :: p => node l key val (attach k v r p)

/-- The insertion `_M_insert_unique` for a map with unique keys (the path of `insert`
without a hint): descend to an empty link; let `j` be the predecessor of that link;
link a new node there when there is no `j` or the key of `j` compares below `k`, and
otherwise leave the tree alone. The result is the tree and the position of the node
the returned iterator points to. -/
def insert (t : EntityTree) (k : EntityID) (v : DisEntity) : EntityTree × Path :=
  let p := t.insertPath k
  match beforeLastRight p with
  | none => (t.attach k v p, p)
  | some q =>
    match t.get? q with
    | some (key, _) => if DisEntityIDCompare key k then (t.attach k v p, p) else (t, q)
    | none => (t, q)

end EntityTree

/-! ## The client: `Process` and `update` -/

/-- The fields of `DIS::EntityStatePdu` that `Process` reads. -/
structure EntityStatePdu where
  entityID : EntityID
  entityType : EntityType
  entityLinearVelocity : Vector3
  deadReckoningAlgorithm : Nat
  entityLinearAcceleration : Vector3
  entityAngularVelocity : Vector3
  entityLocation : Vector3
  entityOrientation : Vector3
deriving DecidableEq

/-- The state of a `DisClient` and of the world it drives. -/
structure DisClient where
  mDisTemplates : Catalog
  mEntities : EntityTree
  world : World

/-- A client right after construction and catalog set-up. -/
def DisClient.init (cat : Catalog) : DisClient := ⟨cat, EntityTree.nil, World.empty⟩

/-- The value-initialised `DisEntity disEntity = {}` with its `simEntity` set. -/
def DisEntity.init (simEntity : Nat) : DisEntity :=
  ⟨simEntity, false, 0, Vector3.zero, Vector3.zero, Vector3.zero⟩

/-- The first half of `Process` (lines 212 to 233): look the identifier up; when it
is not found resolve the template, create the world entity and insert a table entry.
The result is the new state and the position of the entry `entity` points to. -/
def locateEntity (c : DisClient) (espdu : EntityStatePdu) : Outcome (DisClient × Path) :=
  match c.mEntities.find espdu.entityID with
  | some it => Outcome.value (c, it)
  | none =>
    match TemplateLookup c.mDisTemplates espdu.entityType with
    | Outcome.value templateName =>
      let created := createEntity c.world templateName
      let entry := c.mEntities.insert espdu.entityID (DisEntity.init created.2)
      Outcome.value (⟨c.mDisTemplates, entry.1, created.1⟩, entry.2)
    | Outcome.outOfRange i => Outcome.outOfRange i
    | Outcome.outOfFuel => Outcome.outOfFuel

/-- The assignments of lines 236 to 256 to the fields of `*entity`. -/
def foldFields (espdu : EntityStatePdu) (entity : DisEntity) : DisEntity :=
  { entity with
    updatedThisFrame := true
    linearVelocity := espdu.entityLinearVelocity
    deadReckoning := espdu.deadReckoningAlgorithm
    linearAcceleration := espdu.entityLinearAcceleration
    angularVelocity := espdu.entityAngularVelocity }

/-- The second half of `Process` (lines 235 to 271): fold the PDU into `*entity` and
write its position and orientation to the world entity. -/
def foldPdu (espdu : EntityStatePdu) (c : DisClient) (entity : Path) : DisClient :=
  match c.mEntities.get? entity with
  | none => c
  | some (_, e) =>
    let w1 := setPosition c.world e.simEntity espdu.entityLocation
    let w2 := setOrientation w1 e.simEntity ⟨espdu.entityOrientation, espdu.entityLocation⟩
    ⟨c.mDisTemplates, c.mEntities.modify (foldFields espdu) entity, w2⟩

/-- The method `DisClient::Process` for an entity-state PDU. -/
def Process (c : DisClient) (espdu : EntityStatePdu) : Outcome DisClient :=
  match locateEntity c espdu with
  | Outcome.value r => Outcome.value (foldPdu espdu r.1 r.2)
  | Outcome.outOfRange i => Outcome.outOfRange i
  | Outcome.outOfFuel => Outcome.outOfFuel

/-- The call `mIncoming.Process(...)` of `update`: `Process` runs on each entity-state
PDU packed in the datagram, in order. -/
def dispatch (c : DisClient) : List EntityStatePdu → Outcome DisClient
  | [] => Outcome.value c
  | espdu :: rest =>
    match Process c espdu with
    | Outcome.value c1 => dispatch c1 rest
    | Outcome.outOfRange i => Outcome.outOfRange i
    | Outcome.outOfFuel => Outcome.outOfFuel

/-- The `switch (entity->deadReckoning)` of `update` (lines 169 to 188). The case
`RPW` falls through to `FPW` and the case `RVW` to `FVW`; both end in `break`, and
there is no case for any other model. -/
def extrapolate (dt : ℚ) (entity : DisEntity) (geoPosition : Vector3) : Vector3 :=
  if entity.deadReckoning = DeadReckoningModel.RPW ∨
      entity.deadReckoning = DeadReckoningModel.FPW then
    ⟨geoPosition.x + entity.linearVelocity.x * dt,
     geoPosition.y + entity.linearVelocity.y * dt,
     geoPosition.z + entity.linearVelocity.z * dt⟩
  else if entity.deadReckoning = DeadReckoningModel.RVW ∨
      entity.deadReckoning = DeadReckoningModel.FVW then
    let halfDtSqr := dt * dt * (1 / 2)
    ⟨geoPosition.x + (entity.linearVelocity.x * dt + entity.linearAcceleration.x * halfDtSqr),
     geoPosition.y + (entity.linearVelocity.y * dt + entity.linearAcceleration.y * halfDtSqr),
     geoPosition.z + (entity.linearVelocity.z * dt + entity.linearAcceleration.z * halfDtSqr)⟩
  else
    geoPosition

/-- The body of the loop of `update` (lines 154 to 193) for one table entry. -/
def updateEntity (dt : ℚ) (entity : DisEntity) (w : World) : DisEntity × World :=
  let w1 :=
    if !entity.updatedThisFrame then
      match getPosition w entity.simEntity with
      | some geoPosition =>
        if entity.deadReckoning ≠ DeadReckoningModel.Static then
          setPosition w entity.simEntity (extrapolate dt entity geoPosition)
        else w
      | none => w
    else w
  ({ entity with updatedThisFrame := false }, w1)

/-- The loop of `update` over `mEntities`, from `begin()` to `end()`. -/
def updateTree (dt : ℚ) : EntityTree → World → EntityTree × World
  | EntityTree.nil, w => (EntityTree.nil, w)
  | EntityTree.node l k v r, w =>
    let left := updateTree dt l w
    let here := updateEntity dt v left.2
    let right := updateTree dt r here.2
    (EntityTree.node left.1 k here.1 right.1, right.2)

/-- The loop of `update` (lines 152 to 194) on the state of the client. -/
def updateEntities (dt : ℚ) (c : DisClient) : DisClient :=
  ⟨c.mDisTemplates, (updateTree dt c.mEntities c.world).1, (updateTree dt c.mEntities c.world).2⟩

/-- The method `DisClient::update`: the entity-state PDUs of the datagram received
in this tick (none when nothing was received) are dispatched, then the loop runs. -/
def update (dt : ℚ) (pdus : List EntityStatePdu) (c : DisClient) : Outcome DisClient :=
  match dispatch c pdus with
  | Outcome.value c1 => Outcome.value (updateEntities dt c1)
  | Outcome.outOfRange i => Outcome.outOfRange i
  | Outcome.outOfFuel => Outcome.outOfFuel

/-- The handles of the world entities the table entries are bound to. -/
def handles (t : EntityTree) : List Nat := t.entries.map (fun e => e.2.simEntity)

/-- Every table entry is bound to a world entity of its own, created earlier. -/
def HandlesDistinct (c : DisClient) : Prop :=
  (handles c.mEntities).Nodup ∧ ∀ h ∈ handles c.mEntities, h < c.world.count

/-- What the loop body of `update` leaves as the position of the world entity of
`entity`, given the position it had before. -/
def positionAfter (dt : ℚ) (entity : DisEntity) (position : Option Vector3) : Option Vector3 :=
  match position with
  | none => none
  | some p =>
    if entity.updatedThisFrame = false ∧ entity.deadReckoning ≠ DeadReckoningModel.Static then
      some (extrapolate dt entity p)
    else some p

/-- The loop of `update` on the world alone, over the entries in iteration order. -/
def updateList (dt : ℚ) : List (EntityID × DisEntity) → World → World
  | [], w => w
  | e :: es, w => updateList dt es (updateEntity dt e.2 w).2

/-- An entity-state PDU with the given identifier and location and zero elsewhere. -/
def sighting (id : EntityID) (location : Vector3) : EntityStatePdu :=
  ⟨id, ⟨0, 0, 0, 0, 0, 0, 0⟩, Vector3.zero, 0, Vector3.zero, Vector3.zero, location, Vector3.zero⟩

/-- The catalog is in an order `std::sort` with `DisEntityTypeCompare` accepts: no
entry compares below an earlier one. -/
def SortedCompare (cat : Catalog) : Prop :=
  List.Pairwise (fun a b => DisEntityTypeCompare b.1 a.1 = false) cat

instance (cat : Catalog) : Decidable (SortedCompare cat) := by
  unfold SortedCompare; infer_instance

/-- The value of a run that ended without a fault. -/
def Outcome.toOption {α : Type} : Outcome α → Option α
  | Outcome.value a => some a
  | Outcome.outOfRange _ => none
  | Outcome.outOfFuel => none

/-- The number of world entities created so far and the identifiers of the table
entries in iteration order. -/
def census (c : DisClient) : Nat × List EntityID :=
  (c.world.count, c.mEntities.entries.map (fun e => e.1))

/-- A client that tracks the one given entity under the identifier `(1, 1, 1)`; its
world entity 0 is at the given position. -/
def soloClient (entity : DisEntity) (position : Vector3) : DisClient :=
  ⟨PopulateDisTemplates [],
   EntityTree.node EntityTree.nil ⟨1, 1, 1⟩ entity EntityTree.nil,
   setPosition (createEntity World.empty "Shuttle").1 0 position⟩

/-! ## Logs of writes and probes -/

/-- Every catalog entry above the bound `h` is above `key` in the lexicographic
order. -/
def AboveBound (cat : Catalog) (key : EntityType) (h : Nat) : Prop :=
  ∀ i e, cat[i]? = some e → h < i → lexLt key e.1 = true

/-- What one iteration of the inner loop of `TemplateLookup` does after reading
`mDisTemplates[mid]`. -/
inductive ProbeStep where
  /-- The assignment `low = mid + 1`. -/
  | raiseLow
  /-- The assignment `high = mid - 1`. -/
  | lowerHigh
  /-- The statement `return templateEntry.second`. -/
  | hit
  /-- The read was past the end of the catalog. -/
  | pastEnd
deriving DecidableEq

/-- One iteration of the inner loop: the index read and what followed. -/
structure Probe where
  mid : Nat
  step : ProbeStep
deriving DecidableEq

/-- The inner loop of `TemplateLookup` once more, with the log of its iterations. -/
def binarySearchTrace (cat : Catalog) (type : EntityType) :
    Nat → Nat → Nat → List Probe × SearchResult
  | 0, _, _ => ([], SearchResult.outOfFuel)
  | fuel + 1, low, high =>
    if low ≤ high then
      let mid := sizeAdd low high / 2
      match cat[mid]? with
      | none => ([⟨mid, ProbeStep.pastEnd⟩], SearchResult.outOfRange mid)
      | some templateEntry =>
        if DisEntityTypeCompare templateEntry.1 type then
          let rest := binarySearchTrace cat type fuel (sizeAdd mid 1) high
          (⟨mid, ProbeStep.raiseLow⟩ :: rest.1, rest.2)
        else if DisEntityTypeCompare type templateEntry.1 then
          let rest := binarySearchTrace cat type fuel low (sizeSub mid 1)
          (⟨mid, ProbeStep.lowerHigh⟩ :: rest.1, rest.2)
        else
          ([⟨mid, ProbeStep.hit⟩], SearchResult.found mid templateEntry.2)
    else
      ([], SearchResult.notFound low high)

/-- The iterations of the inner loop over a whole run of `TemplateLookup`: those of
each of its searches, in order. -/
def lookupProbes (cat : Catalog) (type : EntityType) : List Probe :=
  (lookupRun cat type).searches.flatMap
    (fun r => (binarySearchTrace cat r.key (cat.length + 1) r.low r.high).1)

/-- A tracked entity bound to world entity 0, with the body-frame model `FVB` and a
non-zero velocity and acceleration. -/
def bodyFrameEntity : DisEntity :=
  ⟨0, false, DeadReckoningModel.FVB, ⟨3, -2, 1⟩, ⟨5, 5, 5⟩, ⟨1, 1, 1⟩⟩

/-- A `_Rb_tree_node_base*`: null, the address of the header `_M_impl._M_header`, or
the address of the `i`-th node allocated. -/
inductive Ptr where
  | null : Ptr
  | header : Ptr
  | node (i : Nat) : Ptr
deriving DecidableEq

/-- The struct `_Rb_tree_node_base`; `red` is `_M_color == _S_red`. -/
structure NodeBase where
  red : Bool
  parent : Ptr
  left : Ptr
  right : Ptr
deriving DecidableEq

/-- The `_Rb_tree_node_base` objects of a tree, which is all that `tree.cc` sees: the
header (whose `parent` is the root, `left` the leftmost and `right` the rightmost
node) and the base of every node allocated, by address. -/
structure Links where
  header : NodeBase
  nodes : List NodeBase
deriving DecidableEq

namespace Links

/-- Reading `*p`. -/
def base (t : Links) : Ptr → Option NodeBase
  | Ptr.null => none
  | Ptr.header => some t.header
  | Ptr.node i => t.nodes[i]?

/-- Assigning to the fields of `*p`. -/
def setBase (t : Links) (p : Ptr) (f : NodeBase → NodeBase) : Option Links :=
  match p with
  | Ptr.null => none
  | Ptr.header => some { t with header := f t.header }
  | Ptr.node i =>
    match t.nodes[i]? with
    | some b => some { t with nodes := t.nodes.set i (f b) }
    | none => none

/-- The fields `p->_M_parent`, `p->_M_left`, `p->_M_right` and the test
`p->_M_color == _S_red`. -/
def parent (t : Links) (p : Ptr) : Option Ptr := (t.base p).map (fun b => b.parent)

def left (t : Links) (p : Ptr) : Option Ptr := (t.base p).map (fun b => b.left)

def right (t : Links) (p : Ptr) : Option Ptr := (t.base p).map (fun b => b.right)

def red (t : Links) (p : Ptr) : Option Bool := (t.base p).map (fun b => b.red)

/-- The assignments `p->_M_parent = q`, `p->_M_left = q`, `p->_M_right = q` and
`p->_M_color = c`. -/
def setParent (t : Links) (p q : Ptr) : Option Links :=
  t.setBase p (fun b => { b with parent := q })

def setLeft (t : Links) (p q : Ptr) : Option Links :=
  t.setBase p (fun b => { b with left := q })

def setRight (t : Links) (p q : Ptr) : Option Links :=
  t.setBase p (fun b => { b with right := q })

def setRed (t : Links) (p : Ptr) (c : Bool) : Option Links :=
  t.setBase p (fun b => { b with red := c })

/-- The fuel of the loops over the nodes: a walk that ends passes no node twice. -/
def fuel (t : Links) : Nat := t.nodes.length + 2

/-- The loop `while (x->_M_left != 0) x = x->_M_left`. -/
def descendLeft (t : Links) : Nat → Ptr → Option Ptr
  | 0, _ => none
  | n + 1, x =>
    match t.base x with
    | some b => if b.left = Ptr.null then some x else descendLeft t n b.left
    | none => none

/-- The loop `while (x->_M_right != 0) x = x->_M_right`. -/
def descendRight (t : Links) : Nat → Ptr → Option Ptr
  | 0, _ => none
  | n + 1, x =>
    match t.base x with
    | some b => if b.right = Ptr.null then some x else descendRight t n b.right
    | none => none

/-- The loop `while (x == y->_M_right) { x = y; y = y->_M_parent; }` of
`_Rb_tree_increment`; the result is the pair `(x, y)` it ends with. -/
def climbFromRight (t : Links) : Nat → Ptr → Ptr → Option (Ptr × Ptr)
  | 0, _, _ => none
  | n + 1, x, y =>
    match t.base y with
    | some b => if x = b.right then climbFromRight t n y b.parent else some (x, y)
    | none => none

/-- The loop `while (x == y->_M_left) { x = y; y = y->_M_parent; }` of
`_Rb_tree_decrement`; the result is the pair `(x, y)` it ends with. -/
def climbFromLeft (t : Links) : Nat → Ptr → Ptr → Option (Ptr × Ptr)
  | 0, _, _ => none
  | n + 1, x, y =>
    match t.base y with
    | some b => if x = b.left then climbFromLeft t n y b.parent else some (x, y)
    | none => none

/-- The function `_Rb_tree_increment` of `tree.cc` (the iterator's `++`). -/
def Rb_tree_increment (t : Links) (x : Ptr) : Option Ptr :=
  match t.base x with
  | none => none
  | some bx =>
    if bx.right ≠ Ptr.null then descendLeft t t.fuel bx.right
    else
      match climbFromRight t t.fuel x bx.parent with
      | none => none
      | some (x1, y1) =>
        match t.base x1 with
        | some b1 => if b1.right ≠ y1 then some y1 else some x1
        | none => none

/-- The function `_Rb_tree_decrement` of `tree.cc` (the iterator's `--`). The first
test recognises the header: it is red and the parent of its parent (the root). -/
def Rb_tree_decrement (t : Links) (x : Ptr) : Option Ptr :=
  match t.base x with
  | none => none
  | some bx =>
    match (if bx.red then (t.parent bx.parent).map (fun pp => decide (pp = x)) else some false) with
    | none => none
    | some true => some bx.right
    | some false =>
      if bx.left ≠ Ptr.null then descendRight t t.fuel bx.left
      else (climbFromLeft t t.fuel x bx.parent).map (fun r => r.2)

/-- The function `local_Rb_tree_rotate_left(x, root)` of `tree.cc`; `root` is the
field `parent` of the header. -/
def Rb_tree_rotate_left (t : Links) (x : Ptr) : Option Links := do
  let y ← t.right x
  let t ← t.setRight x (← t.left y)
  let t ← if (← t.left y) ≠ Ptr.null then t.setParent (← t.left y) x else some t
  let t ← t.setParent y (← t.parent x)
  let t ←
    if x = t.header.parent then some { t with header := { t.header with parent := y } }
    else if x = (← t.left (← t.parent x)) then t.setLeft (← t.parent x) y
    else t.setRight (← t.parent x) y
  let t ← t.setLeft y x
  t.setParent x y

/-- The function `local_Rb_tree_rotate_right(x, root)` of `tree.cc`. -/
def Rb_tree_rotate_right (t : Links) (x : Ptr) : Option Links := do
  let y ← t.left x
  let t ← t.setLeft x (← t.right y)
  let t ← if (← t.right y) ≠ Ptr.null then t.setParent (← t.right y) x else some t
  let t ← t.setParent y (← t.parent x)
  let t ←
    if x = t.header.parent then some { t with header := { t.header with parent := y } }
    else if x = (← t.right (← t.parent x)) then t.setRight (← t.parent x) y
    else t.setLeft (← t.parent x) y
  let t ← t.setRight y x
  t.setParent x y

/-- The rebalancing loop of `_Rb_tree_insert_and_rebalance`:
`while (x != root && x->_M_parent->_M_color == _S_red)`. Every round but the last
blackens two red nodes and reddens one; the loop gets one unit of fuel per node and
two to spare. -/
def rebalance : Nat → Links → Ptr → Option Links
  | 0, _, _ => none
  | n + 1, t, x =>
    if x = t.header.parent then some t
    else do
      if !(← t.red (← t.parent x)) then some t
      else
        let xpp ← t.parent (← t.parent x)
        if (← t.parent x) = (← t.left xpp) then
          let y ← t.right xpp
          if y ≠ Ptr.null ∧ t.red y = some true then
            let t ← t.setRed (← t.parent x) false
            let t ← t.setRed y false
            let t ← t.setRed xpp true
            rebalance n t xpp
          else
            let (t, x) ←
              if x = (← t.right (← t.parent x)) then do
                let p ← t.parent x
                let t1 ← Rb_tree_rotate_left t p
                some (t1, p)
              else some (t, x)
            let t ← t.setRed (← t.parent x) false
            let t ← t.setRed xpp true
            let t ← Rb_tree_rotate_right t xpp
            rebalance n t x
        else
          let y ← t.left xpp
          if y ≠ Ptr.null ∧ t.red y = some true then
            let t ← t.setRed (← t.parent x) false
            let t ← t.setRed y false
            let t ← t.setRed xpp true
            rebalance n t xpp
          else
            let (t, x) ←
              if x = (← t.left (← t.parent x)) then do
                let p ← t.parent x
                let t1 ← Rb_tree_rotate_right t p
                some (t1, p)
              else some (t, x)
            let t ← t.setRed (← t.parent x) false
            let t ← t.setRed xpp true
            let t ← Rb_tree_rotate_left t xpp
            rebalance n t x

/-- The function `_Rb_tree_insert_and_rebalance(insert_left, x, p, header)` of
`tree.cc`, for a node `x` already allocated. -/
def Rb_tree_insert_and_rebalance (t : Links) (insert_left : Bool) (x p : Ptr) :
    Option Links := do
  let t ← t.setBase x (fun _ => ⟨true, p, Ptr.null, Ptr.null⟩)
  let t ←
    if insert_left then do
      let t ← t.setLeft p x
      if p = Ptr.header then
        some { t with header := { t.header with parent := x, right := x } }
      else if p = t.header.left then some { t with header := { t.header with left := x } }
      else some t
    else do
      let t ← t.setRight p x
      if p = t.header.right then some { t with header := { t.header with right := x } }
      else some t
  let t ← rebalance t.fuel t x
  t.setRed t.header.parent false

/-- The iteration `for (it = begin(); it != end(); ++it)` from `it` on: the nodes
visited. -/
def walk (t : Links) : Nat → Ptr → Option (List Ptr)
  | 0, _ => none
  | n + 1, it =>
    if it = Ptr.header then some []
    else
      match Rb_tree_increment t it with
      | some next => (walk t n next).map (fun rest => it :: rest)
      | none => none

end Links

/-- The tree `_M_t` of the map: the node bases, the pair of a key and a `DisEntity`
stored in each node (by address), and `_M_node_count`. -/
structure RbTree where
  links : Links
  pairs : List (EntityID × DisEntity)
  nodeCount : Nat
deriving DecidableEq

namespace RbTree

/-- The constructor `_Rb_tree_header()`: a red header, then `_M_reset()`. -/
def empty : RbTree := ⟨⟨⟨true, Ptr.null, Ptr.header, Ptr.header⟩, []⟩, [], 0⟩

/-- The call `_S_key(p)`; only a node has a key. -/
def S_key (t : RbTree) : Ptr → Option EntityID
  | Ptr.node i => t.pairs[i]?.map (fun e => e.1)
  | _ => none

/-- The value `p->second` of the node an iterator points to. -/
def value? (t : RbTree) : Ptr → Option DisEntity
  | Ptr.node i => t.pairs[i]?.map (fun e => e.2)
  | _ => none

/-- Assignment to the fields of `p->second`. -/
def modify (f : DisEntity → DisEntity) (t : RbTree) : Ptr → Option RbTree
  | Ptr.node i =>
    match t.pairs[i]? with
    | some e => some { t with pairs := t.pairs.set i (e.1, f e.2) }
    | none => none
  | _ => none

/-- The loop of `_M_lower_bound(x, y, k)`. -/
def M_lower_bound (t : RbTree) (k : EntityID) : Nat → Ptr → Ptr → Option Ptr
  | 0, _, _ => none
  | n + 1, x, y =>
    if x = Ptr.null then some y
    else
      match t.S_key x, t.links.base x with
      | some key, some b =>
        if !DisEntityIDCompare key k then M_lower_bound t k n b.left x
        else M_lower_bound t k n b.right y
      | _, _ => none

/-- The member `lower_bound(k)`: `_M_lower_bound(_M_begin(), _M_end(), k)`. -/
def lower_bound (t : RbTree) (k : EntityID) : Option Ptr :=
  M_lower_bound t k t.links.fuel t.links.header.parent Ptr.header

/-- The member `find(k)` of `_Rb_tree`; `Ptr.header` is `end()`. -/
def find (t : RbTree) (k : EntityID) : Option Ptr :=
  match t.lower_bound k with
  | none => none
  | some j =>
    if j = Ptr.header then some Ptr.header
    else
      match t.S_key j with
      | some key => if DisEntityIDCompare k key then some Ptr.header else some j
      | none => none

/-- The loop of `_M_get_insert_unique_pos(k)`, carrying `x`, `y` and `comp`; the
result is `(y, comp)`. -/
def insertDescent (t : RbTree) (k : EntityID) : Nat → Ptr → Ptr → Bool → Option (Ptr × Bool)
  | 0, _, _, _ => none
  | n + 1, x, y, comp =>
    if x = Ptr.null then some (y, comp)
    else
      match t.S_key x, t.links.base x with
      | some key, some b =>
        insertDescent t k n (if DisEntityIDCompare k key then b.left else b.right) x
          (DisEntityIDCompare k key)
      | _, _ => none

/-- The member `_M_get_insert_unique_pos(k)`; the result is the pair
`(first, second)`. -/
def M_get_insert_unique_pos (t : RbTree) (k : EntityID) : Option (Ptr × Ptr) :=
  match insertDescent t k t.links.fuel t.links.header.parent Ptr.header true with
  | none => none
  | some (y, comp) =>
    if comp ∧ y = t.links.header.left then some (Ptr.null, y)
    else
      match (if comp then t.links.Rb_tree_decrement y else some y) with
      | none => none
      | some j =>
        match t.S_key j with
        | some key => if DisEntityIDCompare key k then some (Ptr.null, y) else some (j, Ptr.null)
        | none => none

/-- The member `_M_get_insert_hint_unique_pos(position, k)`. -/
def M_get_insert_hint_unique_pos (t : RbTree) (pos : Ptr) (k : EntityID) : Option (Ptr × Ptr) :=
  if pos = Ptr.header then
    if 0 < t.nodeCount then
      match t.S_key t.links.header.right with
      | some key =>
        if DisEntityIDCompare key k then some (Ptr.null, t.links.header.right)
        else M_get_insert_unique_pos t k
      | none => none
    else M_get_insert_unique_pos t k
  else
    match t.S_key pos, t.links.base pos with
    | some keyPos, some bPos =>
      if DisEntityIDCompare k keyPos then
        if pos = t.links.header.left then some (t.links.header.left, t.links.header.left)
        else
          match t.links.Rb_tree_decrement pos with
          | none => none
          | some before =>
            match t.S_key before, t.links.base before with
            | some keyBefore, some bBefore =>
              if DisEntityIDCompare keyBefore k then
                if bBefore.right = Ptr.null then some (Ptr.null, before) else some (pos, pos)
              else M_get_insert_unique_pos t k
            | _, _ => none
      else if DisEntityIDCompare keyPos k then
        if pos = t.links.header.right then some (Ptr.null, t.links.header.right)
        else
          match t.links.Rb_tree_increment pos with
          | none => none
          | some after =>
            match t.S_key after with
            | some keyAfter =>
              if DisEntityIDCompare k keyAfter then
                if bPos.right = Ptr.null then some (Ptr.null, pos) else some (after, after)
              else M_get_insert_unique_pos t k
            | none => none
      else some (pos, Ptr.null)
    | _, _ => none

/-- The member `_M_insert_node(x, p, z)` for the node `z` that holds the pair
`(k, v)`: `z` gets the next address, is linked below `p` and counted. The result is
the tree and the iterator to `z`. -/
def M_insert_node (t : RbTree) (x p : Ptr) (k : EntityID) (v : DisEntity) :
    Option (RbTree × Ptr) :=
  let z := Ptr.node t.links.nodes.length
  let allocated : Links :=
    ⟨t.links.header, t.links.nodes ++ [⟨false, Ptr.null, Ptr.null, Ptr.null⟩]⟩
  let insert_left : Option Bool :=
    if x ≠ Ptr.null ∨ p = Ptr.header then some true
    else (t.S_key p).map (fun keyP => DisEntityIDCompare k keyP)
  match insert_left with
  | none => none
  | some il =>
    match allocated.Rb_tree_insert_and_rebalance il z p with
    | some linked => some (⟨linked, t.pairs ++ [(k, v)], t.nodeCount + 1⟩, z)
    | none => none

/-- The member `_M_emplace_hint_unique(pos, pair)`: the position is looked for with
the hint, and the node is linked when `second` is not null. -/
def M_emplace_hint_unique (t : RbTree) (pos : Ptr) (k : EntityID) (v : DisEntity) :
    Option (RbTree × Ptr) :=
  match M_get_insert_hint_unique_pos t pos k with
  | none => none
  | some (first, second) =>
    if second ≠ Ptr.null then M_insert_node t first second k v else some (t, first)

/-- The member `std::map::insert(pair&&)` of libstdc++ 12 in C++17 (`stl_map.h`):
`lower_bound(k)`, then `emplace_hint` unless the key at the bound is equivalent. The
result is the tree and the iterator `first` of the returned pair. -/
def insert (t : RbTree) (k : EntityID) (v : DisEntity) : Option (RbTree × Ptr) :=
  match t.lower_bound k with
  | none => none
  | some i =>
    if i = Ptr.header then M_emplace_hint_unique t i k v
    else
      match t.S_key i with
      | some key =>
        if DisEntityIDCompare k key then M_emplace_hint_unique t i k v else some (t, i)
      | none => none

/-- The nodes in the order `begin()` to `end()` visits them. -/
def iteration (t : RbTree) : Option (List Ptr) :=
  t.links.walk t.links.fuel t.links.header.left

end RbTree

/-! ## The client on the tree in memory -/

namespace Rb

/-- The state of a `DisClient` whose member `mEntities` is the tree in memory, and
of the world it drives. -/
structure DisClient where
  mDisTemplates : Catalog
  mEntities : RbTree
  world : World

/-- A client right after construction and catalog set-up. -/
def DisClient.init (cat : Catalog) : DisClient := ⟨cat, RbTree.empty, World.empty⟩

/-- The first half of `Process` (lines 212 to 233): `find`; when it returns `end()`
the template is resolved, the world entity created and the pair inserted. The result
is the new table, the new world and the node `entity` points to. -/
def locateEntity (c : DisClient) (espdu : EntityStatePdu) : Option (RbTree × World × Ptr) :=
  match c.mEntities.find espdu.entityID with
  | none => none
  | some entityIt =>
    if entityIt = Ptr.header then
      match TemplateLookup c.mDisTemplates espdu.entityType with
      | Outcome.value templateName =>
        match c.mEntities.insert espdu.entityID
            (DisEntity.init (createEntity c.world templateName).2) with
        | some entry => some (entry.1, (createEntity c.world templateName).1, entry.2)
        | none => none
      | _ => none
    else some (c.mEntities, c.world, entityIt)

/-- The method `DisClient::Process` for an entity-state PDU: `locateEntity`, then the
assignments to `*entity` and the two writes to its world entity (lines 235 to 271).
Assigning through `end()` is a fault. -/
def Process (c : DisClient) (espdu : EntityStatePdu) : Option DisClient :=
  match locateEntity c espdu with
  | none => none
  | some (table, w, entity) =>
    match table.value? entity, table.modify (foldFields espdu) entity with
    | some e, some table1 =>
      some ⟨c.mDisTemplates, table1,
        setOrientation (setPosition w e.simEntity espdu.entityLocation) e.simEntity
          ⟨espdu.entityOrientation, espdu.entityLocation⟩⟩
    | _, _ => none

/-- The call `mIncoming.Process(...)` of `update` on the PDUs of the datagram. -/
def dispatch (c : DisClient) : List EntityStatePdu → Option DisClient
  | [] => some c
  | espdu :: rest =>
    match Process c espdu with
    | some c1 => dispatch c1 rest
    | none => none

/-- The body of the loop of `update` at each node the iteration visits, in order. -/
def updateNodes (dt : ℚ) : List Ptr → RbTree → World → Option (RbTree × World)
  | [], t, w => some (t, w)
  | it :: rest, t, w =>
    match t.value? it with
    | some entity =>
      match t.modify (fun _ => (updateEntity dt entity w).1) it with
      | some t1 => updateNodes dt rest t1 (updateEntity dt entity w).2
      | none => none
    | none => none

/-- The method `DisClient::update`: the PDUs of the datagram are dispatched, then the
loop runs from `begin()` to `end()`. -/
def update (dt : ℚ) (pdus : List EntityStatePdu) (c : DisClient) : Option DisClient :=
  match dispatch c pdus with
  | none => none
  | some c1 =>
    match c1.mEntities.iteration with
    | none => none
    | some its =>
      match updateNodes dt its c1.mEntities c1.world with
      | some r => some ⟨c1.mDisTemplates, r.1, r.2⟩
      | none => none

/-- Consecutive ticks, each with its time step and the PDUs of its datagram. -/
def run (c : DisClient) : List (ℚ × List EntityStatePdu) → Option DisClient
  | [] => some c
  | tick :: rest =>
    match update tick.1 tick.2 c with
    | some c1 => run c1 rest
    | none => none

/-- The identifiers and world entities of the entries the iteration visits, in
order. -/
def visited (c : DisClient) : Option (List (EntityID × Nat)) :=
  match c.mEntities.iteration with
  | none => none
  | some its => some (its.filterMap (fun it =>
      match c.mEntities.S_key it, c.mEntities.value? it with
      | some k, some v => some (k, v.simEntity)
      | _, _ => none))

/-- What a run leaves behind: `size()` of the table, the entries the iteration
visits, the pair stored in every node (in the order of allocation) and the positions
of the first three world entities. -/
def snapshot (c : DisClient) :
    Nat × Option (List (EntityID × Nat)) × List (EntityID × DisEntity) ×
      List (Option Vector3) :=
  (c.mEntities.nodeCount, visited c, c.mEntities.pairs,
    [getPosition c.world 0, getPosition c.world 1, getPosition c.world 2])

end Rb

/-- An entity-state PDU with the given identifier, dead-reckoning algorithm, linear
velocity, linear acceleration and location, and zero elsewhere. -/
def report (id : EntityID) (algorithm : Nat) (velocity acceleration location : Vector3) :
    EntityStatePdu :=
  ⟨id, ⟨0, 0, 0, 0, 0, 0, 0⟩, velocity, algorithm, acceleration, Vector3.zero, location,
    Vector3.zero⟩

namespace Rb

/-- The node `entity` points to in a call of `Process`. -/
def entityOf (c : DisClient) (espdu : EntityStatePdu) : Option Ptr :=
  (locateEntity c espdu).map (fun r => r.2.2)

/-- The handles of the world entities the nodes of the table are bound to. -/
def handles (t : RbTree) : List Nat := t.pairs.map (fun e => e.2.simEntity)

/-- Every node of the table is bound to a world entity of its own, created
earlier. -/
def HandlesDistinct (c : DisClient) : Prop :=
  (handles c.mEntities).Nodup ∧ ∀ h ∈ handles c.mEntities, h < c.world.count

/-- A client that tracks the one given entity under the identifier `(1, 1, 1)`, in
the only node of its table; its world entity 0 is at the given position. -/
def soloClient (entity : DisEntity) (position : Vector3) : DisClient :=
  ⟨PopulateDisTemplates [],
   ⟨⟨⟨true, Ptr.node 0, Ptr.node 0, Ptr.node 0⟩, [⟨false, Ptr.header, Ptr.null, Ptr.null⟩]⟩,
     [(⟨1, 1, 1⟩, entity)], 1⟩,
   setPosition (createEntity World.empty "Shuttle").1 0 position⟩

end Rb

/-! # Theorems -/

/-! ### The comparison and the binary search -/

theorem compare_zero_right (t : EntityType) :
    DisEntityTypeCompare t EntityType.zero = false := by
  simp [DisEntityTypeCompare, EntityType.zero]

theorem eq_of_compare_false {a b : EntityType}
    (hab : DisEntityTypeCompare a b = false) (hba : DisEntityTypeCompare b a = false) :
    a = b := by
  cases a; cases b
  simp only [DisEntityTypeCompare, Bool.or_eq_false_iff, decide_eq_false_iff_not, not_lt] at hab hba
  simp only [EntityType.mk.injEq]
  omega

theorem zeroFirst_get {cat : Catalog} (hz : ZeroFirst cat) {e : EntityType × String}
    (he : cat[0]? = some e) : e.1 = EntityType.zero := by
  unfold ZeroFirst at hz
  rw [he] at hz
  simpa using hz

theorem zeroFirst_pos {cat : Catalog} (hz : ZeroFirst cat) : 0 < cat.length := by
  unfold ZeroFirst at hz
  cases cat with
  | nil => simp at hz
  | cons _ _ => simp

theorem binarySearch_spec (cat : Catalog) (key : EntityType) (hz : ZeroFirst cat)
    (hn : cat.length < 9223372036854775808) :
    ∀ (fuel low high : Nat), high < cat.length → high + 1 - low < fuel →
      (∃ mid e, cat[mid]? = some e ∧ e.1 = key ∧ low ≤ mid ∧ mid ≤ high ∧
          binarySearch cat key fuel low high = SearchResult.found mid e.2) ∨
      (∃ l h, h ≤ high ∧ h < l ∧ low ≤ l ∧
          binarySearch cat key fuel low high = SearchResult.notFound l h) := by
  intro fuel
  induction fuel with
  | zero => intro low high _ hf; omega
  | succ fuel ih =>
    intro low high hh hf
    rw [binarySearch]
    by_cases hle : low ≤ high
    · have hmid : sizeAdd low high / 2 = (low + high) / 2 := by
        unfold sizeAdd SIZE_MOD; omega
      simp only [hle, if_true, hmid]
      have hlt : (low + high) / 2 < cat.length := by omega
      obtain ⟨e, he⟩ : ∃ e, cat[(low + high) / 2]? = some e :=
        ⟨cat[(low + high) / 2], List.getElem?_eq_getElem hlt⟩
      simp only [he]
      by_cases h1 : DisEntityTypeCompare e.1 key = true
      · simp only [h1, if_true]
        have hadd : sizeAdd ((low + high) / 2) 1 = (low + high) / 2 + 1 := by
          unfold sizeAdd SIZE_MOD; omega
        rw [hadd]
        rcases ih ((low + high) / 2 + 1) high hh (by omega) with
          ⟨mid, e1, h2, h3, h4, h5, h6⟩ | ⟨l, h, h2, h3, h4, h5⟩
        · exact Or.inl ⟨mid, e1, h2, h3, by omega, h5, h6⟩
        · exact Or.inr ⟨l, h, h2, h3, by omega, h5⟩
      · simp only [h1, Bool.false_eq_true, if_false]
        by_cases h2 : DisEntityTypeCompare key e.1 = true
        · simp only [h2, if_true]
          have hpos : 0 < (low + high) / 2 := by
            rcases Nat.eq_zero_or_pos ((low + high) / 2) with h0 | h0
            · rw [h0] at he
              rw [zeroFirst_get hz he, compare_zero_right] at h2
              exact absurd h2 (by simp)
            · exact h0
          have hsub : sizeSub ((low + high) / 2) 1 = (low + high) / 2 - 1 := by
            unfold sizeSub SIZE_MOD; omega
          rw [hsub]
          rcases ih low ((low + high) / 2 - 1) (by omega) (by omega) with
            ⟨mid, e1, h3, h4, h5, h6, h7⟩ | ⟨l, h, h3, h4, h5, h6⟩
          · exact Or.inl ⟨mid, e1, h3, h4, h5, by omega, h7⟩
          · exact Or.inr ⟨l, h, by omega, h4, h5, h6⟩
        · simp only [h2, Bool.false_eq_true, if_false]
          refine Or.inl ⟨(low + high) / 2, e, he, ?_, by omega, by omega, rfl⟩
          exact eq_of_compare_false (by simpa using h1) (by simpa using h2)
    · simp only [hle, if_false]
      exact Or.inr ⟨low, high, le_refl _, by omega, le_refl _, rfl⟩

theorem retryLoop_found {cat : Catalog} {type : EntityType} {low high mid : Nat} {t : String}
    (fuel retry : Nat)
    (h : binarySearch cat type (cat.length + 1) low high = SearchResult.found mid t) :
    retryLoop cat (fuel + 1) type retry low high =
      ⟨[⟨type, low, high, SearchResult.found mid t⟩], Outcome.value (mid, t)⟩ := by
  rw [retryLoop]
  simp only [h]

theorem retryLoop_notFound_some {cat : Catalog} {type type1 : EntityType} {low high l h1 : Nat}
    (fuel : Nat) {retry : Nat}
    (h : binarySearch cat type (cat.length + 1) low high = SearchResult.notFound l h1)
    (hg : generalize retry type = some type1) :
    retryLoop cat (fuel + 1) type retry low high =
      ⟨⟨type, low, high, SearchResult.notFound l h1⟩ ::
          (retryLoop cat fuel type1 (retry + 1) 0 h1).searches,
        (retryLoop cat fuel type1 (retry + 1) 0 h1).outcome⟩ := by
  rw [retryLoop]
  simp only [h, hg]

theorem retryLoop_notFound_none {cat : Catalog} {type : EntityType} {low high l h1 : Nat}
    (fuel : Nat) {retry : Nat}
    (h : binarySearch cat type (cat.length + 1) low high = SearchResult.notFound l h1)
    (hg : generalize retry type = none) :
    retryLoop cat (fuel + 1) type retry low high =
      ⟨[⟨type, low, high, SearchResult.notFound l h1⟩], fallback cat⟩ := by
  rw [retryLoop]
  simp only [h, hg]

theorem generalize_next {d type type1 : EntityType} {retry : Nat}
    (hk : (generalizations d)[retry]? = some type)
    (hg : generalize retry type = some type1) :
    (generalizations d)[retry + 1]? = some type1 := by
  rcases retry with _ | _ | _ | _ | _ | _ | _ | _ <;>
    simp [generalizations, generalize] at hk hg ⊢ <;>
    subst hk <;> subst hg <;> rfl

theorem generalize_none {d type : EntityType} {retry : Nat}
    (hk : (generalizations d)[retry]? = some type)
    (hg : generalize retry type = none) : retry = 7 := by
  rcases retry with _ | _ | _ | _ | _ | _ | _ | _ | _ <;>
    simp [generalizations, generalize] at hk hg ⊢

theorem generalize_some_lt {type type1 : EntityType} {retry : Nat}
    (hg : generalize retry type = some type1) : retry < 7 := by
  rcases retry with _ | _ | _ | _ | _ | _ | _ | _ <;>
    simp [generalize] at hg ⊢

theorem fallback_value {cat : Catalog} (hz : ZeroFirst cat) :
    ∃ e, cat[0]? = some e ∧ fallback cat = Outcome.value (0, e.2) := by
  have hpos := zeroFirst_pos hz
  refine ⟨cat[0], List.getElem?_eq_getElem hpos, ?_⟩
  unfold fallback
  rw [List.getElem?_eq_getElem hpos]

/-- What a run of the retry loop that started from a key of the generalization
sequence of `d` produces, on a catalog whose entry 0 is the all-zero descriptor. -/
theorem retryLoop_outcome (cat : Catalog) (d : EntityType) (hz : ZeroFirst cat)
    (hn : cat.length < 9223372036854775808) :
    ∀ (fuel : Nat) (type : EntityType) (retry high : Nat), high < cat.length →
      8 ≤ retry + fuel → (generalizations d)[retry]? = some type →
      ∃ i e, cat[i]? = some e ∧
        (retryLoop cat fuel type retry 0 high).outcome = Outcome.value (i, e.2) ∧
        (i = 0 ∨ e.1 ∈ generalizations d) ∧
        ((∀ r ∈ (retryLoop cat fuel type retry 0 high).searches,
            ∀ m t, r.result ≠ SearchResult.found m t) → i = 0) ∧
        (∀ r ∈ (retryLoop cat fuel type retry 0 high).searches,
            (∀ m, r.result ≠ SearchResult.outOfRange m) ∧ r.result ≠ SearchResult.outOfFuel) := by
  intro fuel
  induction fuel with
  | zero =>
    intro type retry high _ hf hk
    have := (List.getElem?_eq_some_iff.mp hk).1
    simp [generalizations] at this
    omega
  | succ fuel ih =>
    intro type retry high hh hf hk
    rcases binarySearch_spec cat type hz hn (cat.length + 1) 0 high hh (by omega) with
      ⟨mid, e, h1, h2, _, _, h5⟩ | ⟨l, h, h1, _, _, h4⟩
    · rw [retryLoop_found fuel retry h5]
      refine ⟨mid, e, h1, rfl, Or.inr ?_, ?_, ?_⟩
      · rw [h2]; exact List.getElem?_mem hk
      · intro hall
        exact absurd rfl (hall _ (List.mem_singleton_self _) mid e.2)
      · intro r hr
        rw [List.mem_singleton] at hr
        subst hr
        exact ⟨fun m => by simp, by simp⟩
    · cases hg : generalize retry type with
      | some type1 =>
        rw [retryLoop_notFound_some fuel h4 hg]
        have hlt := generalize_some_lt hg
        obtain ⟨i, e, g1, g2, g3, g4, g5⟩ :=
          ih type1 (retry + 1) h (by omega) (by omega) (generalize_next hk hg)
        refine ⟨i, e, g1, g2, g3, ?_, ?_⟩
        · intro hall
          exact g4 (fun r hr => hall r (List.mem_cons_of_mem _ hr))
        · intro r hr
          rcases List.mem_cons.mp hr with hr | hr
          · subst hr
            exact ⟨fun m => by simp, by simp⟩
          · exact g5 r hr
      | none =>
        rw [retryLoop_notFound_none fuel h4 hg]
        obtain ⟨e, g1, g2⟩ := fallback_value hz
        refine ⟨0, e, g1, g2, Or.inl rfl, fun _ => rfl, ?_⟩
        intro r hr
        rw [List.mem_singleton] at hr
        subst hr
        exact ⟨fun m => by simp, by simp⟩

theorem sizeSub_length {cat : Catalog} (hpos : 0 < cat.length)
    (hn : cat.length < 9223372036854775808) : sizeSub cat.length 1 = cat.length - 1 := by
  unfold sizeSub SIZE_MOD; omega

theorem generalizations_head (d : EntityType) : (generalizations d)[0]? = some d := by
  simp [generalizations]

theorem lookupRun_eq (cat : Catalog) (d : EntityType) (hz : ZeroFirst cat)
    (hn : cat.length < 9223372036854775808) :
    lookupRun cat d = retryLoop cat 8 d 0 0 (cat.length - 1) := by
  unfold lookupRun
  rw [sizeSub_length (zeroFirst_pos hz) hn]

theorem lookupRun_outcome (cat : Catalog) (d : EntityType) (hz : ZeroFirst cat)
    (hn : cat.length < 9223372036854775808) :
    ∃ i e, cat[i]? = some e ∧
      (lookupRun cat d).outcome = Outcome.value (i, e.2) ∧
      (i = 0 ∨ e.1 ∈ generalizations d) ∧
      ((∀ r ∈ (lookupRun cat d).searches, ∀ m t, r.result ≠ SearchResult.found m t) → i = 0) ∧
      (∀ r ∈ (lookupRun cat d).searches,
        (∀ m, r.result ≠ SearchResult.outOfRange m) ∧ r.result ≠ SearchResult.outOfFuel) := by
  have hpos := zeroFirst_pos hz
  have h8 : 8 ≤ 0 + 8 := by omega
  have hlt : cat.length - 1 < cat.length := by omega
  have key := retryLoop_outcome cat d hz hn 8 d 0 (cat.length - 1) hlt h8 (generalizations_head d)
  rw [← lookupRun_eq cat d hz hn] at key
  exact key

theorem TemplateLookup_of_outcome {cat : Catalog} {d : EntityType} {r : Nat × String}
    (h : (lookupRun cat d).outcome = Outcome.value r) :
    TemplateLookup cat d = Outcome.value r.2 := by
  simp only [TemplateLookup, h]

theorem TemplateLookup_value (cat : Catalog) (d : EntityType) (hz : ZeroFirst cat)
    (hn : cat.length < 9223372036854775808) :
    ∃ t, TemplateLookup cat d = Outcome.value t := by
  obtain ⟨i, e, _, h2, _⟩ := lookupRun_outcome cat d hz hn
  exact ⟨e.2, TemplateLookup_of_outcome h2⟩

/-! ### The fuel of the embedding is sufficient on every catalog -/

/-- With `length + 1` units of fuel the inner loop never stops for lack of fuel: it
returns, fails with a smaller upper bound, or reads past the end. -/
theorem binarySearch_terminates (cat : Catalog) (key : EntityType)
    (hn : cat.length < 9223372036854775808) :
    ∀ (fuel low high : Nat), high < cat.length → high + 1 - low < fuel →
      (∃ mid t, binarySearch cat key fuel low high = SearchResult.found mid t) ∨
      (∃ l h, h ≤ high ∧ binarySearch cat key fuel low high = SearchResult.notFound l h) ∨
      (∃ m, binarySearch cat key fuel low high = SearchResult.outOfRange m) := by
  intro fuel
  induction fuel with
  | zero => intro low high _ hf; omega
  | succ fuel ih =>
    intro low high hh hf
    rw [binarySearch]
    by_cases hle : low ≤ high
    · have hmid : sizeAdd low high / 2 = (low + high) / 2 := by
        unfold sizeAdd SIZE_MOD; omega
      simp only [hle, if_true, hmid]
      have hlt : (low + high) / 2 < cat.length := by omega
      obtain ⟨e, he⟩ : ∃ e, cat[(low + high) / 2]? = some e :=
        ⟨cat[(low + high) / 2], List.getElem?_eq_getElem hlt⟩
      simp only [he]
      by_cases h1 : DisEntityTypeCompare e.1 key = true
      · simp only [h1, if_true]
        have hadd : sizeAdd ((low + high) / 2) 1 = (low + high) / 2 + 1 := by
          unfold sizeAdd SIZE_MOD; omega
        rw [hadd]
        rcases ih ((low + high) / 2 + 1) high hh (by omega) with
          h2 | ⟨l, h, h2, h3⟩ | h2
        · exact Or.inl h2
        · exact Or.inr (Or.inl ⟨l, h, h2, h3⟩)
        · exact Or.inr (Or.inr h2)
      · simp only [h1, Bool.false_eq_true, if_false]
        by_cases h2 : DisEntityTypeCompare key e.1 = true
        · simp only [h2, if_true]
          rcases Nat.eq_zero_or_pos ((low + high) / 2) with h0 | h0
          · -- `mid = 0`: the upper bound wraps around and the next probe is past the end
            have hlow : low = 0 := by omega
            have hsub : sizeSub ((low + high) / 2) 1 = 18446744073709551615 := by
              rw [h0]; decide
            rw [hsub, hlow]
            obtain ⟨f, rfl⟩ : ∃ f, fuel = f + 1 := ⟨fuel - 1, by omega⟩
            rw [binarySearch]
            have hprobe : sizeAdd 0 18446744073709551615 / 2 = 9223372036854775807 := by
              decide
            have hnone : cat[9223372036854775807]? = none :=
              List.getElem?_eq_none (by omega)
            simp only [Nat.zero_le, if_true, hprobe, hnone]
            exact Or.inr (Or.inr ⟨_, rfl⟩)
          · have hsub : sizeSub ((low + high) / 2) 1 = (low + high) / 2 - 1 := by
              unfold sizeSub SIZE_MOD; omega
            rw [hsub]
            rcases ih low ((low + high) / 2 - 1) (by omega) (by omega) with
              h3 | ⟨l, h, h3, h4⟩ | h3
            · exact Or.inl h3
            · exact Or.inr (Or.inl ⟨l, h, by omega, h4⟩)
            · exact Or.inr (Or.inr h3)
        · simp only [h2, Bool.false_eq_true, if_false]
          exact Or.inl ⟨_, _, rfl⟩
    · simp only [hle, if_false]
      exact Or.inr (Or.inl ⟨low, high, le_refl _, rfl⟩)

theorem retryLoop_terminates (cat : Catalog) (hn : cat.length < 9223372036854775808) :
    ∀ (fuel : Nat) (type : EntityType) (retry low high : Nat), high < cat.length →
      retry ≤ 7 → 8 ≤ retry + fuel →
      (retryLoop cat fuel type retry low high).outcome ≠ Outcome.outOfFuel := by
  intro fuel
  induction fuel with
  | zero => intro type retry low high _ h7 h8; omega
  | succ fuel ih =>
    intro type retry low high hh h7 h8
    rcases binarySearch_terminates cat type hn (cat.length + 1) low high hh (by omega) with
      ⟨mid, t, h1⟩ | ⟨l, h, h1, h2⟩ | ⟨m, h1⟩
    · rw [retryLoop_found fuel retry h1]
      simp
    · cases hg : generalize retry type with
      | some type1 =>
        rw [retryLoop_notFound_some fuel h2 hg]
        exact ih type1 (retry + 1) 0 h (by omega) (generalize_some_lt hg) (by omega)
      | none =>
        rw [retryLoop_notFound_none fuel h2 hg]
        unfold fallback
        cases cat[0]? <;> simp
    · rw [retryLoop]
      simp only [h1]
      simp

/-- On every catalog a `std::vector` can hold, `TemplateLookup` in the embedding
ends with a value or with a read past the end, never for lack of fuel. -/
theorem TemplateLookup_terminates (cat : Catalog) (d : EntityType)
    (hn : cat.length < 9223372036854775808) :
    TemplateLookup cat d ≠ Outcome.outOfFuel := by
  have key : (lookupRun cat d).outcome ≠ Outcome.outOfFuel := by
    cases cat with
    | nil =>
      have h : (lookupRun [] d).outcome = Outcome.outOfRange 9223372036854775807 := rfl
      rw [h]
      simp
    | cons x xs =>
      have hpos : 0 < (x :: xs).length := by simp
      have h := retryLoop_terminates (x :: xs) hn 8 d 0 0 ((x :: xs).length - 1) (by omega)
        (by omega) (by omega)
      unfold lookupRun
      rw [sizeSub_length hpos hn]
      exact h
  intro h
  unfold TemplateLookup at h
  cases ho : (lookupRun cat d).outcome with
  | value r => rw [ho] at h; simp at h
  | outOfRange i => rw [ho] at h; simp at h
  | outOfFuel => exact key ho

/-! ### The bounds of the retry searches -/

theorem retryLoop_head (cat : Catalog) (fuel : Nat) (type : EntityType) (retry low high : Nat) :
    ∀ r ∈ (retryLoop cat fuel type retry low high).searches.head?,
      r.low = low ∧ r.high = high := by
  cases fuel with
  | zero => simp [retryLoop]
  | succ fuel =>
    rw [retryLoop]
    cases binarySearch cat type (cat.length + 1) low high with
    | found mid t => simp
    | outOfRange mid => simp
    | outOfFuel => simp
    | notFound l h =>
      cases generalize retry type with
      | some t1 => simp
      | none => simp

theorem retryLoop_bounds (cat : Catalog) (hz : ZeroFirst cat)
    (hn : cat.length < 9223372036854775808) :
    ∀ (fuel : Nat) (type : EntityType) (retry low high : Nat), high < cat.length →
      List.Chain' CarriedOver (retryLoop cat fuel type retry low high).searches ∧
      ∀ r ∈ (retryLoop cat fuel type retry low high).searches, r.high ≤ high := by
  intro fuel
  induction fuel with
  | zero => intro type retry low high _; simp [retryLoop]
  | succ fuel ih =>
    intro type retry low high hh
    rcases binarySearch_spec cat type hz hn (cat.length + 1) low high hh (by omega) with
      ⟨mid, e, _, _, _, _, h5⟩ | ⟨l, h, h1, _, _, h4⟩
    · rw [retryLoop_found fuel retry h5]
      simp
    · cases hg : generalize retry type with
      | some type1 =>
        rw [retryLoop_notFound_some fuel h4 hg]
        obtain ⟨g1, g2⟩ := ih type1 (retry + 1) 0 h (by omega)
        refine ⟨List.chain'_cons'.mpr ⟨?_, g1⟩, ?_⟩
        · intro r hr
          obtain ⟨k1, k2⟩ := retryLoop_head cat fuel type1 (retry + 1) 0 h r hr
          exact ⟨k1, ⟨l, by rw [k2]⟩, by rw [k2]; exact h1⟩
        · intro r hr
          rcases List.mem_cons.mp hr with hr | hr
          · subst hr; exact le_refl _
          · exact le_trans (g2 r hr) h1
      | none =>
        rw [retryLoop_notFound_none fuel h4 hg]
        simp

/-- The carry-over needs nothing of the catalog: a failed search leaves an upper bound
that is not above the one it started with. (When the bound wraps below zero, the
next probe is past the end and the run ends there.) -/
theorem retryLoop_carried (cat : Catalog) (hn : cat.length < 9223372036854775808) :
    ∀ (fuel : Nat) (type : EntityType) (retry low high : Nat), high < cat.length →
      List.Chain' CarriedOver (retryLoop cat fuel type retry low high).searches ∧
      ∀ r ∈ (retryLoop cat fuel type retry low high).searches, r.high ≤ high := by
  intro fuel
  induction fuel with
  | zero => intro type retry low high _; simp [retryLoop]
  | succ fuel ih =>
    intro type retry low high hh
    rcases binarySearch_terminates cat type hn (cat.length + 1) low high hh (by omega) with
      ⟨mid, t, h5⟩ | ⟨l, h, h1, h4⟩ | ⟨m, h5⟩
    · rw [retryLoop_found fuel retry h5]
      simp
    · cases hg : generalize retry type with
      | some type1 =>
        rw [retryLoop_notFound_some fuel h4 hg]
        obtain ⟨g1, g2⟩ := ih type1 (retry + 1) 0 h (by omega)
        refine ⟨List.chain'_cons'.mpr ⟨?_, g1⟩, ?_⟩
        · intro r hr
          obtain ⟨k1, k2⟩ := retryLoop_head cat fuel type1 (retry + 1) 0 h r hr
          exact ⟨k1, ⟨l, by rw [k2]⟩, by rw [k2]; exact h1⟩
        · intro r hr
          rcases List.mem_cons.mp hr with hr | hr
          · subst hr; exact le_refl _
          · exact le_trans (g2 r hr) h1
      | none =>
        rw [retryLoop_notFound_none fuel h4 hg]
        simp
    · rw [retryLoop]
      simp only [h5]
      simp

/-! ### The world collaborator -/

theorem getPosition_setPosition (w : World) (h h1 : Nat) (p : Vector3) :
    getPosition (setPosition w h p) h1 = if h1 = h then some p else getPosition w h1 := by
  unfold getPosition setPosition
  by_cases hh : h1 = h
  · subst hh; simp
  · simp [Function.update_noteq hh, hh]

theorem getPosition_setOrientation (w : World) (h h1 : Nat) (o : Orientation) :
    getPosition (setOrientation w h o) h1 = getPosition w h1 := by
  unfold getPosition setOrientation
  by_cases hh : h1 = h
  · subst hh; simp
  · simp [Function.update_noteq hh]

theorem getPosition_updateEntity (dt : ℚ) (e : DisEntity) (w : World) (h : Nat) :
    getPosition (updateEntity dt e w).2 h =
      if h = e.simEntity then positionAfter dt e (getPosition w h) else getPosition w h := by
  unfold updateEntity positionAfter
  by_cases hh : h = e.simEntity
  · subst hh
    cases hu : e.updatedThisFrame <;> cases hp : getPosition w e.simEntity <;>
      by_cases hs : e.deadReckoning = DeadReckoningModel.Static <;>
      simp [hu, hp, hs, getPosition_setPosition]
  · cases hu : e.updatedThisFrame <;> cases hp : getPosition w e.simEntity <;>
      by_cases hs : e.deadReckoning = DeadReckoningModel.Static <;>
      simp [hu, hp, hs, hh, getPosition_setPosition]

theorem updateList_append (dt : ℚ) (a b : List (EntityID × DisEntity)) (w : World) :
    updateList dt (a ++ b) w = updateList dt b (updateList dt a w) := by
  induction a generalizing w with
  | nil => rfl
  | cons e es ih => simp [updateList, ih]

theorem updateTree_world (dt : ℚ) (t : EntityTree) (w : World) :
    (updateTree dt t w).2 = updateList dt t.entries w := by
  induction t generalizing w with
  | nil => rfl
  | node l k v r ihl ihr =>
    simp only [updateTree, EntityTree.entries, updateList_append, updateList, ihl, ihr]

theorem getPosition_updateList_of_not_mem (dt : ℚ) (es : List (EntityID × DisEntity))
    (w : World) (h : Nat) (hh : h ∉ es.map (fun e => e.2.simEntity)) :
    getPosition (updateList dt es w) h = getPosition w h := by
  induction es generalizing w with
  | nil => rfl
  | cons e es ih =>
    simp only [List.map_cons, List.mem_cons, not_or] at hh
    rw [updateList, ih _ hh.2, getPosition_updateEntity, if_neg hh.1]

theorem getPosition_updateList_of_mem (dt : ℚ) (es : List (EntityID × DisEntity))
    (w : World) (hnd : (es.map (fun e => e.2.simEntity)).Nodup)
    (e : EntityID × DisEntity) (he : e ∈ es) :
    getPosition (updateList dt es w) e.2.simEntity =
      positionAfter dt e.2 (getPosition w e.2.simEntity) := by
  induction es generalizing w with
  | nil => simp at he
  | cons x xs ih =>
    simp only [List.map_cons, List.nodup_cons] at hnd
    rw [updateList]
    rcases List.mem_cons.mp he with hx | hx
    · subst hx
      rw [getPosition_updateList_of_not_mem dt xs _ _ hnd.1, getPosition_updateEntity, if_pos rfl]
    · have hne : e.2.simEntity ≠ x.2.simEntity := by
        intro heq
        apply hnd.1
        rw [← heq]
        exact List.mem_map_of_mem (fun e => e.2.simEntity) hx
      rw [ih _ hnd.2 hx, getPosition_updateEntity, if_neg hne]

/-- The position of the world entity of a table entry after the loop of `update`. -/
theorem getPosition_updateEntities (dt : ℚ) (c : DisClient) (hd : HandlesDistinct c)
    (e : EntityID × DisEntity) (he : e ∈ c.mEntities.entries) :
    getPosition (updateEntities dt c).world e.2.simEntity =
      positionAfter dt e.2 (getPosition c.world e.2.simEntity) := by
  unfold updateEntities
  simp only [updateTree_world]
  exact getPosition_updateList_of_mem dt _ _ hd.1 e he

/-! ### The entity table -/

theorem eq_of_idCompare_false {a b : EntityID}
    (hab : DisEntityIDCompare a b = false) (hba : DisEntityIDCompare b a = false) : a = b := by
  cases a; cases b
  simp only [DisEntityIDCompare, Bool.or_eq_false_iff, decide_eq_false_iff_not, not_lt] at hab hba
  simp only [EntityID.mk.injEq]
  omega

namespace EntityTree

theorem lowerBound_get {t : EntityTree} {k : EntityID} {p : Path}
    (h : t.lowerBound k = some p) :
    ∃ key v, t.get? p = some (key, v) ∧ DisEntityIDCompare key k = false := by
  induction t generalizing p with
  | nil => simp [lowerBound] at h
  | node l key v r ihl ihr =>
    simp only [lowerBound] at h
    by_cases hc : DisEntityIDCompare key k = true
    · simp only [hc, Bool.not_true, Bool.false_eq_true, if_false, Option.map_eq_some'] at h
      obtain ⟨q, hq, rfl⟩ := h
      simpa [get?] using ihr hq
    · have hc1 : DisEntityIDCompare key k = false := by simpa using hc
      simp only [hc1, Bool.not_false, if_true] at h
      cases hl : lowerBound k l with
      | none =>
        simp only [hl, Option.some.injEq] at h
        subst h
        exact ⟨key, v, rfl, hc1⟩
      | some q =>
        simp only [hl, Option.some.injEq] at h
        subst h
        simpa [get?] using ihl hl

theorem find_get {t : EntityTree} {k : EntityID} {p : Path} (h : t.find k = some p) :
    ∃ v, t.get? p = some (k, v) := by
  unfold find at h
  cases hl : t.lowerBound k with
  | none => simp [hl] at h
  | some q =>
    obtain ⟨key, v, hg, hc⟩ := lowerBound_get hl
    simp only [hl, hg] at h
    by_cases hc2 : DisEntityIDCompare k key = true
    · simp [hc2] at h
    · have hc3 : DisEntityIDCompare k key = false := by simpa using hc2
      simp only [hc3, Bool.false_eq_true, if_false, Option.some.injEq] at h
      subst h
      rw [eq_of_idCompare_false hc3 hc]
      exact ⟨v, hg⟩

theorem get?_modify {t : EntityTree} {p : Path} {k : EntityID} {v : DisEntity}
    (f : DisEntity → DisEntity) (h : t.get? p = some (k, v)) :
    (t.modify f p).get? p = some (k, f v) := by
  induction t generalizing p with
  | nil => simp [get?] at h
  | node l key val r ihl ihr =>
    cases p with
    | nil =>
      simp only [get?, Option.some.injEq, Prod.mk.injEq] at h
      simp [modify, get?, h.1, h.2]
    | cons b p =>
      cases b with
      | false => simp only [get?] at h; simpa [modify, get?] using ihl h
      | true => simp only [get?] at h; simpa [modify, get?] using ihr h

theorem handles_modify (f : DisEntity → DisEntity) (hf : ∀ v, (f v).simEntity = v.simEntity)
    (t : EntityTree) (p : Path) : handles (t.modify f p) = handles t := by
  induction t generalizing p with
  | nil => rfl
  | node l key val r ihl ihr =>
    unfold handles at ihl ihr ⊢
    cases p with
    | nil => simp [modify, entries, hf]
    | cons b p =>
      cases b with
      | false => simp [modify, entries, ihl]
      | true => simp [modify, entries, ihr]

theorem get?_attach (k : EntityID) (v : DisEntity) (t : EntityTree) :
    (t.attach k v (t.insertPath k)).get? (t.insertPath k) = some (k, v) := by
  induction t with
  | nil => simp [insertPath, attach, get?]
  | node l key val r ihl ihr =>
    by_cases hc : DisEntityIDCompare k key = true
    · simp [insertPath, hc, attach, get?, ihl]
    · simp [insertPath, hc, attach, get?, ihr]

theorem handles_attach (k : EntityID) (v : DisEntity) (t : EntityTree) (p : Path) :
    (handles (t.attach k v p)).Perm (handles t) ∨
      (handles (t.attach k v p)).Perm (v.simEntity :: handles t) := by
  induction t generalizing p with
  | nil => right; simp [attach, handles, entries]
  | node l key val r ihl ihr =>
    unfold handles at ihl ihr ⊢
    cases p with
    | nil => left; simp [attach]
    | cons b p =>
      cases b with
      | false =>
        simp only [attach, entries, List.map_append, List.map_cons]
        rcases ihl p with h | h
        · left; exact List.Perm.append_right _ h
        · right
          exact (List.Perm.append_right _ h).trans (by simp)
      | true =>
        simp only [attach, entries, List.map_append, List.map_cons]
        rcases ihr p with h | h
        · left
          exact List.Perm.append_left _ (List.Perm.cons _ h)
        · right
          refine (List.Perm.append_left _ (List.Perm.cons _ h)).trans ?_
          refine (List.Perm.append_left _ (List.Perm.swap _ _ _)).trans ?_
          exact List.perm_middle

theorem beforeLastRight_insertPath {t : EntityTree} {k : EntityID} {q : Path}
    (h : beforeLastRight (t.insertPath k) = some q) :
    ∃ key val, t.get? q = some (key, val) ∧ DisEntityIDCompare k key = false := by
  induction t generalizing q with
  | nil => simp [insertPath, beforeLastRight] at h
  | node l key val r ihl ihr =>
    by_cases hc : DisEntityIDCompare k key = true
    · simp only [insertPath, hc, if_true, beforeLastRight] at h
      cases hb : beforeLastRight (insertPath k l) with
      | none => simp [hb] at h
      | some q1 =>
        simp only [hb, Option.some.injEq] at h
        subst h
        simpa [get?] using ihl hb
    · have hc1 : DisEntityIDCompare k key = false := by simpa using hc
      simp only [insertPath, hc1, Bool.false_eq_true, if_false, beforeLastRight] at h
      cases hb : beforeLastRight (insertPath k r) with
      | none =>
        simp only [hb, if_true, Option.some.injEq] at h
        subst h
        exact ⟨key, val, rfl, hc1⟩
      | some q1 =>
        simp only [hb, Option.some.injEq] at h
        subst h
        simpa [get?] using ihr hb

/-- The iterator `insert` returns points to an entry with the inserted key, and the
table gains at most the new entry. -/
theorem insert_spec (t : EntityTree) (k : EntityID) (v : DisEntity) :
    (∃ v1, (t.insert k v).1.get? (t.insert k v).2 = some (k, v1)) ∧
    ((handles (t.insert k v).1).Perm (handles t) ∨
      (handles (t.insert k v).1).Perm (v.simEntity :: handles t)) := by
  cases hb : beforeLastRight (t.insertPath k) with
  | none =>
    have h : t.insert k v = (t.attach k v (t.insertPath k), t.insertPath k) := by
      simp only [insert, hb]
    rw [h]
    exact ⟨⟨v, get?_attach k v t⟩, handles_attach k v t _⟩
  | some q =>
    obtain ⟨key, val, hg, hc⟩ := beforeLastRight_insertPath hb
    by_cases hc2 : DisEntityIDCompare key k = true
    · have h : t.insert k v = (t.attach k v (t.insertPath k), t.insertPath k) := by
        simp only [insert, hb, hg, hc2, if_true]
      rw [h]
      exact ⟨⟨v, get?_attach k v t⟩, handles_attach k v t _⟩
    · have hc3 : DisEntityIDCompare key k = false := by simpa using hc2
      have h : t.insert k v = (t, q) := by
        simp only [insert, hb, hg, hc3, Bool.false_eq_true, if_false]
      rw [h]
      refine ⟨⟨val, ?_⟩, Or.inl (List.Perm.refl _)⟩
      rw [hg, eq_of_idCompare_false hc hc3]

end EntityTree

/-! ### `Process` -/

theorem handlesDistinct_init (cat : Catalog) : HandlesDistinct (DisClient.init cat) := by
  constructor <;> simp [DisClient.init, handles, EntityTree.entries]

/-- The first half of `Process` ends with `entity` pointing to a table entry whose
key is the identifier of the PDU. -/
theorem locateEntity_spec (c : DisClient) (espdu : EntityStatePdu)
    (hz : ZeroFirst c.mDisTemplates) (hn : c.mDisTemplates.length < 9223372036854775808)
    (hd : HandlesDistinct c) :
    ∃ c1 entity e0, locateEntity c espdu = Outcome.value (c1, entity) ∧
      c1.mEntities.get? entity = some (espdu.entityID, e0) ∧
      HandlesDistinct c1 ∧ c1.mDisTemplates = c.mDisTemplates := by
  cases hf : c.mEntities.find espdu.entityID with
  | some it =>
    obtain ⟨v, hv⟩ := EntityTree.find_get hf
    exact ⟨c, it, v, by simp only [locateEntity, hf], hv, hd, rfl⟩
  | none =>
    obtain ⟨t, ht⟩ := TemplateLookup_value c.mDisTemplates espdu.entityType hz hn
    obtain ⟨⟨v1, hv1⟩, hperm⟩ :=
      EntityTree.insert_spec c.mEntities espdu.entityID (DisEntity.init c.world.count)
    refine ⟨⟨c.mDisTemplates,
        (c.mEntities.insert espdu.entityID (DisEntity.init c.world.count)).1,
        (createEntity c.world t).1⟩,
      (c.mEntities.insert espdu.entityID (DisEntity.init c.world.count)).2, v1,
      by simp only [locateEntity, hf, ht, createEntity], hv1, ?_, rfl⟩
    · have hfresh : c.world.count ∉ handles c.mEntities := fun hm =>
        absurd (hd.2 _ hm) (lt_irrefl _)
      simp only [createEntity, HandlesDistinct, DisEntity.init] at hperm ⊢
      rcases hperm with hp | hp
      · refine ⟨hp.nodup_iff.mpr hd.1, fun h hh => ?_⟩
        exact Nat.lt_succ_of_lt (hd.2 h (hp.mem_iff.mp hh))
      · refine ⟨hp.nodup_iff.mpr (List.nodup_cons.mpr ⟨hfresh, hd.1⟩), fun h hh => ?_⟩
        rcases List.mem_cons.mp (hp.mem_iff.mp hh) with h1 | h1
        · omega
        · exact Nat.lt_succ_of_lt (hd.2 h h1)

/-- The second half of `Process` on the entry `entity` points to. -/
theorem foldPdu_spec (espdu : EntityStatePdu) (c : DisClient) (entity : Path)
    (k : EntityID) (e0 : DisEntity) (hg : c.mEntities.get? entity = some (k, e0))
    (hd : HandlesDistinct c) :
    (foldPdu espdu c entity).mEntities.get? entity = some (k, foldFields espdu e0) ∧
      HandlesDistinct (foldPdu espdu c entity) ∧
      getPosition (foldPdu espdu c entity).world e0.simEntity = some espdu.entityLocation ∧
      (foldPdu espdu c entity).mDisTemplates = c.mDisTemplates := by
  have hh : handles (c.mEntities.modify (foldFields espdu) entity) = handles c.mEntities :=
    EntityTree.handles_modify (foldFields espdu) (fun _ => rfl) _ _
  have hfold : foldPdu espdu c entity =
      ⟨c.mDisTemplates, c.mEntities.modify (foldFields espdu) entity,
        setOrientation (setPosition c.world e0.simEntity espdu.entityLocation) e0.simEntity
          ⟨espdu.entityOrientation, espdu.entityLocation⟩⟩ := by
    simp only [foldPdu, hg]
  rw [hfold]
  refine ⟨EntityTree.get?_modify _ hg, ?_, ?_, rfl⟩
  · refine ⟨?_, ?_⟩
    · show (handles (c.mEntities.modify (foldFields espdu) entity)).Nodup
      rw [hh]; exact hd.1
    · show ∀ h ∈ handles (c.mEntities.modify (foldFields espdu) entity), h < c.world.count
      rw [hh]; exact hd.2
  · show getPosition (setOrientation (setPosition c.world e0.simEntity espdu.entityLocation)
        e0.simEntity ⟨espdu.entityOrientation, espdu.entityLocation⟩) e0.simEntity = _
    rw [getPosition_setOrientation, getPosition_setPosition, if_pos rfl]

/-- On a catalog that starts with the all-zero entry `Process` returns, and the
entry for the identifier of the PDU then holds the fields of the PDU. -/
theorem Process_spec (c : DisClient) (espdu : EntityStatePdu)
    (hz : ZeroFirst c.mDisTemplates) (hn : c.mDisTemplates.length < 9223372036854775808)
    (hd : HandlesDistinct c) :
    ∃ c1 entity e0, Process c espdu = Outcome.value c1 ∧
      c1.mEntities.get? entity = some (espdu.entityID, foldFields espdu e0) ∧
      HandlesDistinct c1 ∧
      getPosition c1.world e0.simEntity = some espdu.entityLocation ∧
      c1.mDisTemplates = c.mDisTemplates := by
  obtain ⟨c1, entity, e0, h1, h2, h3, h4⟩ := locateEntity_spec c espdu hz hn hd
  obtain ⟨g1, g2, g3, g4⟩ := foldPdu_spec espdu c1 entity _ e0 h2 h3
  exact ⟨foldPdu espdu c1 entity, entity, e0, by simp only [Process, h1], g1, g2, g3,
    g4.trans h4⟩

theorem update_of_dispatch {dt : ℚ} {pdus : List EntityStatePdu} {c c1 : DisClient}
    (h : dispatch c pdus = Outcome.value c1) :
    update dt pdus c = Outcome.value (updateEntities dt c1) := by
  simp only [update, h]

/-! ### `HandlesDistinct` holds in every state the client reaches -/

theorem updateEntity_count (dt : ℚ) (e : DisEntity) (w : World) :
    (updateEntity dt e w).2.count = w.count := by
  unfold updateEntity
  cases e.updatedThisFrame <;> cases getPosition w e.simEntity <;>
    by_cases hs : e.deadReckoning = DeadReckoningModel.Static <;> simp [hs, setPosition]

theorem updateEntity_simEntity (dt : ℚ) (e : DisEntity) (w : World) :
    (updateEntity dt e w).1.simEntity = e.simEntity := rfl

theorem updateTree_handles (dt : ℚ) (t : EntityTree) (w : World) :
    handles (updateTree dt t w).1 = handles t ∧ (updateTree dt t w).2.count = w.count := by
  induction t generalizing w with
  | nil => exact ⟨rfl, rfl⟩
  | node l k v r ihl ihr =>
    unfold handles at ihl ihr ⊢
    simp only [updateTree, EntityTree.entries, List.map_append, List.map_cons,
      (ihl w).1, (ihr _).1, (ihr _).2, updateEntity_count, (ihl w).2, updateEntity_simEntity,
      and_self]

theorem handlesDistinct_updateEntities (dt : ℚ) (c : DisClient) (hd : HandlesDistinct c) :
    HandlesDistinct (updateEntities dt c) := by
  obtain ⟨h1, h2⟩ := updateTree_handles dt c.mEntities c.world
  refine ⟨?_, ?_⟩
  · show (handles (updateTree dt c.mEntities c.world).1).Nodup
    rw [h1]; exact hd.1
  · show ∀ h ∈ handles (updateTree dt c.mEntities c.world).1,
      h < (updateTree dt c.mEntities c.world).2.count
    rw [h1, h2]; exact hd.2

theorem dispatch_spec (pdus : List EntityStatePdu) :
    ∀ (c : DisClient), ZeroFirst c.mDisTemplates →
      c.mDisTemplates.length < 9223372036854775808 → HandlesDistinct c →
      ∃ c1, dispatch c pdus = Outcome.value c1 ∧ HandlesDistinct c1 ∧
        c1.mDisTemplates = c.mDisTemplates := by
  induction pdus with
  | nil => intro c _ _ hd; exact ⟨c, rfl, hd, rfl⟩
  | cons espdu rest ih =>
    intro c hz hn hd
    obtain ⟨c1, _, _, h1, _, h3, _, h5⟩ := Process_spec c espdu hz hn hd
    obtain ⟨c2, g1, g2, g3⟩ := ih c1 (h5 ▸ hz) (h5 ▸ hn) h3
    exact ⟨c2, by simp only [dispatch, h1, g1], g2, g3.trans h5⟩

/-- Started from a client whose catalog begins with the all-zero entry, `update`
returns, and table entries stay bound to world entities of their own. -/
theorem update_spec (dt : ℚ) (pdus : List EntityStatePdu) (c : DisClient)
    (hz : ZeroFirst c.mDisTemplates) (hn : c.mDisTemplates.length < 9223372036854775808)
    (hd : HandlesDistinct c) :
    ∃ c2, update dt pdus c = Outcome.value c2 ∧ HandlesDistinct c2 ∧
      c2.mDisTemplates = c.mDisTemplates := by
  obtain ⟨c1, h1, h2, h3⟩ := dispatch_spec pdus c hz hn hd
  exact ⟨updateEntities dt c1, update_of_dispatch h1, handlesDistinct_updateEntities dt c1 h2, h3⟩

/-! ## The claims about the resolver -/

/-- C1 (most specific match wins), evaluated on the code: `kindCatalog` is sorted
ascending without repeats under the lexicographic order and starts with the all-zero
entry; the first generalization of `(1,1,0,0,3,2,7)` that occurs in it is
`(1,1,0,0,0,0,0)`, the key of `"LandPlatform"`; yet `TemplateLookup` returns the
fallback `"DisUnknownEntity"`, because the first probe, at `(2,0,0,0,0,0,0)`, compares
below the key (its domain is smaller) and sends every search of that key to the
upper half. -/
theorem generalized_key_resolves_to_fallback :
    SortedLex kindCatalog ∧ ZeroFirst kindCatalog ∧
      firstMatch kindCatalog (generalizations ⟨1, 1, 0, 0, 3, 2, 7⟩) = some "LandPlatform" ∧
      TemplateLookup kindCatalog ⟨1, 1, 0, 0, 3, 2, 7⟩ = Outcome.value "DisUnknownEntity" := by
  decide

/-- C2 (exactness), evaluated on the code: the descriptor `(1,1,0,0,0,0,0)` is an
entry of the sorted catalog `kindCatalog` with template `"LandPlatform"`, and
`TemplateLookup` of that very descriptor returns `"DisUnknownEntity"`. -/
theorem catalogued_key_resolves_to_fallback :
    SortedLex kindCatalog ∧ ZeroFirst kindCatalog ∧
      ((⟨1, 1, 0, 0, 0, 0, 0⟩, "LandPlatform") : EntityType × String) ∈ kindCatalog ∧
      TemplateLookup kindCatalog ⟨1, 1, 0, 0, 0, 0, 0⟩ = Outcome.value "DisUnknownEntity" := by
  decide

/-- C3 (the comparison is the strict lexicographic order), evaluated on the code:
`(1,0,0,0,0,0,0)` does not precede `(0,1,0,0,0,0,0)` lexicographically, yet
`DisEntityTypeCompare` holds of the pair, and in the other direction too, so the
comparison is neither lexicographic nor asymmetric. -/
theorem compare_holds_both_ways :
    lexLt ⟨1, 0, 0, 0, 0, 0, 0⟩ ⟨0, 1, 0, 0, 0, 0, 0⟩ = false ∧
      DisEntityTypeCompare ⟨1, 0, 0, 0, 0, 0, 0⟩ ⟨0, 1, 0, 0, 0, 0, 0⟩ = true ∧
      DisEntityTypeCompare ⟨0, 1, 0, 0, 0, 0, 0⟩ ⟨1, 0, 0, 0, 0, 0, 0⟩ = true := by
  decide

/-- C4 as stated fails: `headlessCatalog` is non-empty and sorted ascending (under the
lexicographic order and under the comparator), and entry 0 compares `<=` every other
entry, but looking the all-zero descriptor up makes `high = mid - 1` wrap around at
`mid = 0` and the next probe reads index `2^63 - 1`, past the end. -/
theorem lookup_below_first_entry_reads_past_end :
    headlessCatalog ≠ [] ∧ SortedLexLe headlessCatalog ∧ SortedCompare headlessCatalog ∧
      (∀ e0 ∈ headlessCatalog.head?, ∀ e ∈ headlessCatalog.tail, lexLe e0.1 e.1 = true) ∧
      TemplateLookup headlessCatalog EntityType.zero =
        Outcome.outOfRange 9223372036854775807 := by
  decide

/-- C4, amended: on every catalog whose entry 0 is the all-zero descriptor (sorted or
not; a `std::vector` has fewer than `2^63` elements) and for every descriptor,
`TemplateLookup` returns the template of a catalog entry, no search reads an index
past the end or runs out of fuel, and when no search finds a match the template
returned is the one at index 0. -/
theorem lookup_always_succeeds (cat : Catalog) (d : EntityType) (hz : ZeroFirst cat)
    (hn : cat.length < 9223372036854775808) :
    ∃ i e, cat[i]? = some e ∧ TemplateLookup cat d = Outcome.value e.2 ∧
      (∀ r ∈ (lookupRun cat d).searches,
        (∀ m, r.result ≠ SearchResult.outOfRange m) ∧ r.result ≠ SearchResult.outOfFuel) ∧
      ((∀ r ∈ (lookupRun cat d).searches, ∀ m t, r.result ≠ SearchResult.found m t) →
        i = 0) := by
  obtain ⟨i, e, h1, h2, _, h4, h5⟩ := lookupRun_outcome cat d hz hn
  exact ⟨i, e, h1, TemplateLookup_of_outcome h2, h5, h4⟩

/-- C4, amended, on the catalog of `PopulateDisTemplates` and an aircraft descriptor. -/
theorem lookup_always_succeeds_witness :
    ZeroFirst (PopulateDisTemplates []) ∧
      ∃ i e, (PopulateDisTemplates [])[i]? = some e ∧
        TemplateLookup (PopulateDisTemplates []) ⟨1, 2, 225, 1, 0, 0, 0⟩ = Outcome.value e.2 ∧
        (∀ r ∈ (lookupRun (PopulateDisTemplates []) ⟨1, 2, 225, 1, 0, 0, 0⟩).searches,
          (∀ m, r.result ≠ SearchResult.outOfRange m) ∧
            r.result ≠ SearchResult.outOfFuel) ∧
        ((∀ r ∈ (lookupRun (PopulateDisTemplates []) ⟨1, 2, 225, 1, 0, 0, 0⟩).searches,
            ∀ m t, r.result ≠ SearchResult.found m t) → i = 0) :=
  ⟨by decide,
    lookup_always_succeeds (PopulateDisTemplates []) ⟨1, 2, 225, 1, 0, 0, 0⟩ (by decide)
      (by decide)⟩

/-- C5 (fallback): on a catalog whose entry 0 is the all-zero descriptor, if no entry
other than entry 0 has a descriptor among the eight keys `d0 .. d7` of `d`, then
`TemplateLookup d` returns the template stored at index 0. -/
theorem lookup_without_ancestor_returns_entry_zero (cat : Catalog) (d : EntityType)
    (hz : ZeroFirst cat) (hn : cat.length < 9223372036854775808)
    (hno : ∀ e ∈ cat.tail, e.1 ∉ generalizations d) :
    ∃ e0, cat[0]? = some e0 ∧ TemplateLookup cat d = Outcome.value e0.2 := by
  obtain ⟨i, e, h1, h2, h3, _, _⟩ := lookupRun_outcome cat d hz hn
  have hi : i = 0 := by
    rcases h3 with h3 | h3
    · exact h3
    · rcases Nat.eq_zero_or_pos i with h0 | h0
      · exact h0
      · exfalso
        obtain ⟨j, rfl⟩ : ∃ j, i = j + 1 := ⟨i - 1, by omega⟩
        have hmem : e ∈ cat.tail := by
          cases cat with
          | nil => simp at h1
          | cons x xs =>
            simp only [List.getElem?_cons_succ] at h1
            exact List.getElem?_mem h1
        exact hno e hmem h3
  subst hi
  exact ⟨e, h1, TemplateLookup_of_outcome h2⟩

/-- C5 on the catalog of the specification: a munition descriptor has no ancestor
there, so the result is `"Unknown"`, the template at index 0. -/
theorem lookup_without_ancestor_returns_entry_zero_witness :
    ZeroFirst jaguarCatalog ∧
      (∀ e ∈ jaguarCatalog.tail, e.1 ∉ generalizations ⟨2, 1, 225, 3, 0, 0, 0⟩) ∧
      ∃ e0, jaguarCatalog[0]? = some e0 ∧
        TemplateLookup jaguarCatalog ⟨2, 1, 225, 3, 0, 0, 0⟩ = Outcome.value e0.2 :=
  ⟨by decide, by decide,
    lookup_without_ancestor_returns_entry_zero jaguarCatalog ⟨2, 1, 225, 3, 0, 0, 0⟩
      (by decide) (by decide) (by decide)⟩

/-- C6 as stated fails: on the sorted two-entry catalog `munitionCatalog` the first
search for `(1,0,0,0,0,0,0)` starts with the bounds `(0, 1)`, and each of the seven
retry searches starts with `high = 0`, not with `size - 1 = 1`. -/
theorem retry_search_does_not_restart_high :
    SortedLex munitionCatalog ∧ ZeroFirst munitionCatalog ∧
      (lookupRun munitionCatalog ⟨1, 0, 0, 0, 0, 0, 0⟩).searches.map
          (fun r => (r.low, r.high)) =
        [(0, 1), (0, 0), (0, 0), (0, 0), (0, 0), (0, 0), (0, 0), (0, 0)] ∧
      ¬ ∀ r ∈ (lookupRun munitionCatalog ⟨1, 0, 0, 0, 0, 0, 0⟩).searches.tail,
          r.low = 0 ∧ r.high = munitionCatalog.length - 1 := by
  decide

/-- C6, amended: on every catalog (of fewer than `2 ^ 63` entries, which is every
catalog a `std::vector` can hold) the first search of `TemplateLookup` starts with
`low = 0` and `high = size - 1` (computed in `size_t`), and every retry search starts
with `low = 0` and with `high` left at the value the failed search before it ended
with, which is at most the bound that search started with; so every search starts
with `high <= size - 1`. On a non-empty catalog `size - 1` does not wrap. -/
theorem retry_search_carries_high_over (cat : Catalog) (d : EntityType)
    (hn : cat.length < 9223372036854775808) :
    (∀ r ∈ (lookupRun cat d).searches.head?, r.low = 0 ∧ r.high = sizeSub cat.length 1) ∧
      List.Chain' CarriedOver (lookupRun cat d).searches ∧
      (∀ r ∈ (lookupRun cat d).searches, r.high ≤ sizeSub cat.length 1) ∧
      (cat ≠ [] → sizeSub cat.length 1 = cat.length - 1) := by
  cases cat with
  | nil =>
    have h : (lookupRun [] d).searches =
        [⟨d, 0, 18446744073709551615, SearchResult.outOfRange 9223372036854775807⟩] := rfl
    have hs : sizeSub ([] : Catalog).length 1 = 18446744073709551615 := by decide
    rw [h, hs]
    refine ⟨?_, List.chain'_singleton _, ?_, fun hne => absurd rfl hne⟩
    · intro r hr
      simp only [List.head?_cons, Option.mem_def, Option.some.injEq] at hr
      subst hr
      exact ⟨rfl, rfl⟩
    · intro r hr
      simp only [List.mem_singleton] at hr
      subst hr
      exact le_refl _
  | cons x xs =>
    have hpos : 0 < (x :: xs).length := by simp
    have hlt : (x :: xs).length - 1 < (x :: xs).length := by omega
    have hs := sizeSub_length hpos hn
    have hrun : lookupRun (x :: xs) d = retryLoop (x :: xs) 8 d 0 0 ((x :: xs).length - 1) := by
      unfold lookupRun
      rw [hs]
    have h1 := retryLoop_head (x :: xs) 8 d 0 0 ((x :: xs).length - 1)
    have h2 := retryLoop_carried (x :: xs) hn 8 d 0 0 ((x :: xs).length - 1) hlt
    rw [← hrun] at h1 h2
    rw [hs]
    exact ⟨h1, h2.1, h2.2, fun _ => rfl⟩

/-- C6, amended, on the catalog and descriptor for which C6 as stated fails. -/
theorem retry_search_carries_high_over_witness :
    munitionCatalog.length < 9223372036854775808 ∧
      (∀ r ∈ (lookupRun munitionCatalog ⟨1, 0, 0, 0, 0, 0, 0⟩).searches.head?,
        r.low = 0 ∧ r.high = sizeSub munitionCatalog.length 1) ∧
      List.Chain' CarriedOver (lookupRun munitionCatalog ⟨1, 0, 0, 0, 0, 0, 0⟩).searches ∧
      (∀ r ∈ (lookupRun munitionCatalog ⟨1, 0, 0, 0, 0, 0, 0⟩).searches,
        r.high ≤ sizeSub munitionCatalog.length 1) ∧
      (munitionCatalog ≠ [] → sizeSub munitionCatalog.length 1 = munitionCatalog.length - 1) :=
  ⟨by decide,
    retry_search_carries_high_over munitionCatalog ⟨1, 0, 0, 0, 0, 0, 0⟩ (by decide)⟩

/-! ## The claims about the entity table and dead reckoning -/

/-- C7 (a world entity is created only for an identifier not seen before), evaluated
on the code: after the PDUs for `(0,1,0)` and `(1,0,0)` two world entities exist and
the table holds both identifiers; a second PDU for `(1,0,0)` creates a third world
entity, although its identifier is in the table, because `find` turns right at the
root `(0,1,0)` while `insert` had linked `(1,0,0)` to its left. -/
theorem repeated_identifier_creates_another_entity :
    ((dispatch (DisClient.init (PopulateDisTemplates []))
          [sighting ⟨0, 1, 0⟩ ⟨1, 2, 3⟩, sighting ⟨1, 0, 0⟩ ⟨4, 5, 6⟩]).toOption.map census =
        some (2, [⟨1, 0, 0⟩, ⟨0, 1, 0⟩])) ∧
      ((dispatch (DisClient.init (PopulateDisTemplates []))
          [sighting ⟨0, 1, 0⟩ ⟨1, 2, 3⟩, sighting ⟨1, 0, 0⟩ ⟨4, 5, 6⟩,
            sighting ⟨1, 0, 0⟩ ⟨4, 5, 7⟩]).toOption.map census =
        some (3, [⟨1, 0, 0⟩, ⟨0, 1, 0⟩])) := by
  decide

/-! ### What the loop of `update` leaves unchanged -/

theorem extrapolate_unimplemented (dt : ℚ) (e : DisEntity) (p : Vector3)
    (hm : e.deadReckoning = 0 ∨ 5 < e.deadReckoning) : extrapolate dt e p = p := by
  unfold extrapolate DeadReckoningModel.RPW DeadReckoningModel.FPW DeadReckoningModel.RVW
    DeadReckoningModel.FVW
  have k1 : ∀ m : Nat, (m = 0 ∨ 5 < m) → ¬ (m = 3 ∨ m = 2) := by intro m h; omega
  have k2 : ∀ m : Nat, (m = 0 ∨ 5 < m) → ¬ (m = 4 ∨ m = 5) := by intro m h; omega
  have h1 : ¬ (e.deadReckoning = 3 ∨ e.deadReckoning = 2) := k1 e.deadReckoning hm
  have h2 : ¬ (e.deadReckoning = 4 ∨ e.deadReckoning = 5) := k2 e.deadReckoning hm
  simp only [h1, h2, if_false]

theorem positionAfter_unimplemented (dt : ℚ) (e : DisEntity) (pos : Option Vector3)
    (hm : e.deadReckoning = 0 ∨ 5 < e.deadReckoning) : positionAfter dt e pos = pos := by
  unfold positionAfter
  cases pos with
  | none => rfl
  | some p =>
    simp only [extrapolate_unimplemented dt e p hm]
    split <;> rfl

theorem soloClient_handlesDistinct (e : DisEntity) (p : Vector3) (h : e.simEntity = 0) :
    HandlesDistinct (soloClient e p) := by
  constructor <;>
    simp [soloClient, handles, EntityTree.entries, createEntity, setPosition, World.empty, h]

/-! ## The claims about the loop of `update` -/

/-- C12 (unimplemented models are no-ops): if after the dispatch of the PDUs of a tick
a table entry `e` has the model `Other` or an algorithm code above 5 (`FPB`, `RPB`,
`RVB`, `FVB` or any other code outside 1..5), then `update` returns and the position
of the world entity of `e` after the loop equals its position before the loop,
whatever `dt`, velocity and acceleration are; the table entries are bound to world
entities of their own. -/
theorem unimplemented_models_keep_position (dt : ℚ) (pdus : List EntityStatePdu)
    (c c1 : DisClient) (k : EntityID) (e : DisEntity)
    (hdisp : dispatch c pdus = Outcome.value c1)
    (hd : HandlesDistinct c1) (he : (k, e) ∈ c1.mEntities.entries)
    (hm : e.deadReckoning = DeadReckoningModel.Other ∨ 5 < e.deadReckoning) :
    ∃ c2, update dt pdus c = Outcome.value c2 ∧
      getPosition c2.world e.simEntity = getPosition c1.world e.simEntity := by
  refine ⟨updateEntities dt c1, update_of_dispatch hdisp, ?_⟩
  have hloop := getPosition_updateEntities dt c1 hd (k, e) he
  simp only at hloop
  rw [hloop]
  exact positionAfter_unimplemented dt e _ hm

/-- C12 on an entity with model `FVB`, velocity `(3, -2, 1)` and a non-zero
acceleration, at `(4, 5, 6)`, with `dt = 2`. -/
theorem unimplemented_models_keep_position_witness :
    ∃ c2, update 2 [] (soloClient bodyFrameEntity ⟨4, 5, 6⟩) = Outcome.value c2 ∧
      getPosition c2.world 0 = some ⟨4, 5, 6⟩ :=
  unimplemented_models_keep_position 2 [] (soloClient bodyFrameEntity ⟨4, 5, 6⟩)
    (soloClient bodyFrameEntity ⟨4, 5, 6⟩) ⟨1, 1, 1⟩ bodyFrameEntity rfl
    (soloClient_handlesDistinct bodyFrameEntity ⟨4, 5, 6⟩ rfl)
    (by simp [soloClient, EntityTree.entries]) (Or.inr (by decide))

theorem lexLtFields_lt_of_lt_of_le :
    ∀ (a b c : List Nat), lexLtFields a b = true → lexLtFields c b = false →
      b.length = c.length → lexLtFields a c = true := by
  intro a
  induction a with
  | nil => intro b c h; simp [lexLtFields] at h
  | cons x xs ih =>
    intro b c hab hcb hlen
    cases b with
    | nil => simp [lexLtFields] at hab
    | cons y ys =>
      cases c with
      | nil => simp at hlen
      | cons z zs =>
        simp only [lexLtFields] at hab hcb ⊢
        simp only [List.length_cons, Nat.add_right_cancel_iff] at hlen
        by_cases hzy : z < y
        · simp [hzy] at hcb
        · by_cases hyz : y < z
          · by_cases hxy : x < y
            · have : x < z := by omega
              simp [this]
            · by_cases hyx : y < x
              · simp [hxy, hyx] at hab
              · have : x < z := by omega
                simp [this]
          · have hyz' : y = z := by omega
            subst hyz'
            simp only [hzy, if_false] at hcb
            by_cases hxy : x < y
            · simp [hxy]
            · by_cases hyx : y < x
              · simp [hxy, hyx] at hab
              · simp only [hxy, hyx, if_false] at hab ⊢
                exact ih ys zs hab hcb hlen

theorem lexLtFields_lt_of_le_of_lt :
    ∀ (a b c : List Nat), lexLtFields b a = false → lexLtFields b c = true →
      a.length = b.length → lexLtFields a c = true := by
  intro a
  induction a with
  | nil =>
    intro b c _ hbc hlen
    cases b with
    | nil => simp [lexLtFields] at hbc
    | cons y ys => simp at hlen
  | cons x xs ih =>
    intro b c hba hbc hlen
    cases b with
    | nil => simp at hlen
    | cons y ys =>
      cases c with
      | nil => simp [lexLtFields] at hbc
      | cons z zs =>
        simp only [lexLtFields] at hba hbc ⊢
        simp only [List.length_cons, Nat.add_right_cancel_iff] at hlen
        by_cases hyx : y < x
        · simp [hyx] at hba
        · by_cases hxy : x < y
          · by_cases hyz : y < z
            · have : x < z := by omega
              simp [this]
            · by_cases hzy : z < y
              · simp [hyz, hzy] at hbc
              · have : x < z := by omega
                simp [this]
          · have hxy' : x = y := by omega
            subst hxy'
            simp only [hyx, if_false] at hba
            by_cases hxz : x < z
            · simp [hxz]
            · by_cases hzx : z < x
              · simp [hxz, hzx] at hbc
              · simp only [hxz, hzx, if_false] at hbc ⊢
                exact ih ys zs hba hbc hlen

theorem lexLtFields_irrefl (a : List Nat) : lexLtFields a a = false := by
  induction a with
  | nil => rfl
  | cons x xs ih => simp [lexLtFields, ih]

theorem fields_length (a : EntityType) : a.fields.length = 7 := rfl

theorem lexLt_of_lt_of_le {a b c : EntityType} (hab : lexLt a b = true)
    (hbc : lexLe b c = true) : lexLt a c = true := by
  unfold lexLe at hbc
  unfold lexLt at hab hbc ⊢
  exact lexLtFields_lt_of_lt_of_le _ _ _ hab (by simpa using hbc) rfl

theorem lexLt_of_le_of_lt {a b c : EntityType} (hab : lexLe a b = true)
    (hbc : lexLt b c = true) : lexLt a c = true := by
  unfold lexLe at hab
  unfold lexLt at hab hbc ⊢
  exact lexLtFields_lt_of_le_of_lt _ _ _ (by simpa using hab) hbc rfl

theorem lexLt_irrefl (a : EntityType) : lexLt a a = false := lexLtFields_irrefl _

theorem lexLtFields_of_forall_le :
    ∀ (a b : List Nat), List.Forall₂ (fun x y => x ≤ y) a b → lexLtFields b a = false := by
  intro a
  induction a with
  | nil => intro b _; cases b <;> rfl
  | cons x xs ih =>
    intro b h
    cases b with
    | nil => rfl
    | cons y ys =>
      rw [List.forall₂_cons] at h
      simp only [lexLtFields]
      have h1 : ¬ y < x := by omega
      by_cases h2 : x < y
      · simp [h1, h2]
      · simp [h1, h2, ih ys h.2]

theorem lexLtFields_of_forall_le_of_ne :
    ∀ (a b : List Nat), List.Forall₂ (fun x y => x ≤ y) a b → a ≠ b →
      lexLtFields a b = true := by
  intro a
  induction a with
  | nil =>
    intro b h hne
    cases b with
    | nil => exact absurd rfl hne
    | cons y ys => simp at h
  | cons x xs ih =>
    intro b h hne
    cases b with
    | nil => simp at h
    | cons y ys =>
      rw [List.forall₂_cons] at h
      simp only [lexLtFields]
      by_cases h2 : x < y
      · simp [h2]
      · have h3 : x = y := by omega
        subst h3
        simp only [h2, if_false]
        exact ih ys h.2 (fun heq => hne (by rw [heq]))

theorem fields_forall_le {a b : EntityType} (h : DisEntityTypeCompare b a = false) :
    List.Forall₂ (fun x y => x ≤ y) a.fields b.fields := by
  simp only [DisEntityTypeCompare, Bool.or_eq_false_iff, decide_eq_false_iff_not, not_lt] at h
  obtain ⟨⟨⟨⟨⟨⟨h1, h2⟩, h3⟩, h4⟩, h5⟩, h6⟩, h7⟩ := h
  exact List.Forall₂.cons h1 (List.Forall₂.cons h2 (List.Forall₂.cons h3 (List.Forall₂.cons h4
    (List.Forall₂.cons h5 (List.Forall₂.cons h6 (List.Forall₂.cons h7 List.Forall₂.nil))))))

/-- An entry none of whose fields is below the field of the key is not below the key
in the lexicographic order. -/
theorem lexLe_of_compare_false {a b : EntityType} (h : DisEntityTypeCompare b a = false) :
    lexLe a b = true := by
  unfold lexLe lexLt
  rw [lexLtFields_of_forall_le _ _ (fields_forall_le h)]
  rfl

/-- The branch `high = mid - 1` is taken only at an entry that is above the key in the
lexicographic order. -/
theorem lexLt_of_compare {key entry : EntityType}
    (h1 : DisEntityTypeCompare entry key = false) (h2 : DisEntityTypeCompare key entry = true) :
    lexLt key entry = true := by
  unfold lexLt
  refine lexLtFields_of_forall_le_of_ne _ _ (fields_forall_le h1) ?_
  intro heq
  have hke : key = entry := by
    cases key; cases entry
    simp only [EntityType.fields, List.cons.injEq, and_true] at heq
    simp only [EntityType.mk.injEq]
    exact heq
  rw [hke] at h2
  have h3 : DisEntityTypeCompare entry entry = false := by
    simp [DisEntityTypeCompare]
  rw [h3] at h2
  exact absurd h2 (by simp)

theorem sortedLexLe_get {cat : Catalog} (hs : SortedLexLe cat) {i j : Nat}
    {a b : EntityType × String} (ha : cat[i]? = some a) (hb : cat[j]? = some b)
    (hij : i < j) : lexLe a.1 b.1 = true := by
  obtain ⟨hi, rfl⟩ := List.getElem?_eq_some_iff.mp ha
  obtain ⟨hj, rfl⟩ := List.getElem?_eq_some_iff.mp hb
  exact List.pairwise_iff_getElem.mp hs i j hi hj hij

/-! ### The carried-over upper bound on a lexicographically sorted catalog -/

theorem aboveBound_of_le {cat : Catalog} {key key1 : EntityType} {h : Nat}
    (hk : DisEntityTypeCompare key key1 = false) (ha : AboveBound cat key h) :
    AboveBound cat key1 h :=
  fun i e he hi => lexLt_of_le_of_lt (lexLe_of_compare_false hk) (ha i e he hi)

/-- A search that fails on a sorted catalog leaves `high` at a bound above which every
entry is above the key. -/
theorem binarySearch_aboveBound (cat : Catalog) (key : EntityType) (hs : SortedLexLe cat)
    (hn : cat.length < 9223372036854775808) :
    ∀ (fuel low high : Nat), high < cat.length → AboveBound cat key high →
      ∀ l h, binarySearch cat key fuel low high = SearchResult.notFound l h →
        h ≤ high ∧ AboveBound cat key h := by
  intro fuel
  induction fuel with
  | zero => intro low high _ _ l h hr; simp [binarySearch] at hr
  | succ fuel ih =>
    intro low high hh ha l h hr
    rw [binarySearch] at hr
    by_cases hle : low ≤ high
    · have hmid : sizeAdd low high / 2 = (low + high) / 2 := by
        unfold sizeAdd SIZE_MOD; omega
      simp only [hle, if_true, hmid] at hr
      have hlt : (low + high) / 2 < cat.length := by omega
      obtain ⟨e, he⟩ : ∃ e, cat[(low + high) / 2]? = some e :=
        ⟨cat[(low + high) / 2], List.getElem?_eq_getElem hlt⟩
      simp only [he] at hr
      by_cases h1 : DisEntityTypeCompare e.1 key = true
      · simp only [h1, if_true] at hr
        have hadd : sizeAdd ((low + high) / 2) 1 = (low + high) / 2 + 1 := by
          unfold sizeAdd SIZE_MOD; omega
        rw [hadd] at hr
        exact ih _ _ hh ha l h hr
      · have h1' : DisEntityTypeCompare e.1 key = false := by simpa using h1
        simp only [h1, Bool.false_eq_true, if_false] at hr
        by_cases h2 : DisEntityTypeCompare key e.1 = true
        · simp only [h2, if_true] at hr
          rcases Nat.eq_zero_or_pos ((low + high) / 2) with h0 | h0
          · exfalso
            have hlow : low = 0 := by omega
            have hsub : sizeSub ((low + high) / 2) 1 = 18446744073709551615 := by
              rw [h0]; decide
            rw [hsub, hlow] at hr
            cases fuel with
            | zero => simp [binarySearch] at hr
            | succ f =>
              rw [binarySearch] at hr
              have hprobe : sizeAdd 0 18446744073709551615 / 2 = 9223372036854775807 := by
                decide
              have hnone : cat[9223372036854775807]? = none :=
                List.getElem?_eq_none (by omega)
              simp [hprobe, hnone] at hr
          · have hsub : sizeSub ((low + high) / 2) 1 = (low + high) / 2 - 1 := by
              unfold sizeSub SIZE_MOD; omega
            rw [hsub] at hr
            have ha1 : AboveBound cat key ((low + high) / 2 - 1) := by
              intro i ei hei hi
              have hkey : lexLt key e.1 = true := lexLt_of_compare h1' h2
              rcases Nat.eq_or_lt_of_le (show (low + high) / 2 ≤ i by omega) with heq | hgt
              · rw [← heq, he] at hei
                cases hei
                exact hkey
              · exact lexLt_of_lt_of_le hkey (sortedLexLe_get hs he hei hgt)
            obtain ⟨g1, g2⟩ := ih low _ (by omega) ha1 l h hr
            exact ⟨by omega, g2⟩
        · simp [h2] at hr
    · simp only [hle, if_false, SearchResult.notFound.injEq] at hr
      obtain ⟨_, rfl⟩ := hr
      exact ⟨le_refl _, ha⟩

theorem generalize_compare {type type1 : EntityType} {retry : Nat}
    (hg : generalize retry type = some type1) : DisEntityTypeCompare type type1 = false := by
  rcases retry with _ | _ | _ | _ | _ | _ | _ | _ <;>
    simp [generalize] at hg <;> subst hg <;> simp [DisEntityTypeCompare]

theorem compare_irrefl (a : EntityType) : DisEntityTypeCompare a a = false := by
  simp [DisEntityTypeCompare]

/-- No key of the generalization sequence has a field above the same field of an
earlier key. -/
theorem generalizations_compare {d type k : EntityType} {retry : Nat}
    (hk : (generalizations d)[retry]? = some type)
    (hm : k ∈ (generalizations d).drop retry) : DisEntityTypeCompare type k = false := by
  rcases retry with _ | _ | _ | _ | _ | _ | _ | _ | _ <;>
    simp [generalizations] at hk hm <;> subst hk <;>
    (try rcases hm with rfl | hm) <;> (try rcases hm with rfl | hm) <;>
    (try rcases hm with rfl | hm) <;> (try rcases hm with rfl | hm) <;>
    (try rcases hm with rfl | hm) <;> (try rcases hm with rfl | hm) <;>
    (try rcases hm with rfl | hm) <;> (try subst hm) <;> simp [DisEntityTypeCompare]

theorem retryLoop_fault {cat : Catalog} {type : EntityType} {low high : Nat}
    (fuel retry : Nat)
    (h : ∀ l h1, binarySearch cat type (cat.length + 1) low high ≠ SearchResult.notFound l h1) :
    (retryLoop cat (fuel + 1) type retry low high).searches =
      [⟨type, low, high, binarySearch cat type (cat.length + 1) low high⟩] := by
  rw [retryLoop]
  cases hr : binarySearch cat type (cat.length + 1) low high with
  | found mid t => rfl
  | outOfRange mid => rfl
  | outOfFuel => rfl
  | notFound l h1 => exact absurd hr (h l h1)

theorem retryLoop_aboveBound (cat : Catalog) (d : EntityType) (hs : SortedLexLe cat)
    (hn : cat.length < 9223372036854775808) :
    ∀ (fuel : Nat) (type : EntityType) (retry low high : Nat), high < cat.length →
      AboveBound cat type high → (generalizations d)[retry]? = some type →
      ∀ j r l h, (retryLoop cat fuel type retry low high).searches[j]? = some r →
        r.result = SearchResult.notFound l h →
        (generalizations d)[retry + j]? = some r.key ∧
          ∀ k ∈ (generalizations d).drop (retry + j), ∀ i e, cat[i]? = some e → h < i →
            e.1 ≠ k := by
  intro fuel
  induction fuel with
  | zero => intro type retry low high _ _ _ j r l h hj; simp [retryLoop] at hj
  | succ fuel ih =>
    intro type retry low high hh ha hk j r l h hj hr
    by_cases hnf : ∃ l1 h1,
        binarySearch cat type (cat.length + 1) low high = SearchResult.notFound l1 h1
    · obtain ⟨l1, h1, hres⟩ := hnf
      obtain ⟨g1, g2⟩ := binarySearch_aboveBound cat type hs hn _ _ _ hh ha l1 h1 hres
      have hhead : ∀ k ∈ (generalizations d).drop retry, ∀ i e, cat[i]? = some e → h1 < i →
          e.1 ≠ k := by
        intro k hkm i e he hi heq
        have hlt := lexLt_of_le_of_lt (lexLe_of_compare_false (generalizations_compare hk hkm))
          (g2 i e he hi)
        rw [heq, lexLt_irrefl] at hlt
        exact absurd hlt (by simp)
      cases hg : generalize retry type with
      | some type1 =>
        rw [retryLoop_notFound_some fuel hres hg] at hj
        cases j with
        | zero =>
          simp only [List.getElem?_cons_zero, Option.some.injEq] at hj
          subst hj
          simp only [SearchResult.notFound.injEq] at hr
          obtain ⟨_, rfl⟩ := hr
          exact ⟨hk, hhead⟩
        | succ j =>
          simp only [List.getElem?_cons_succ] at hj
          have key := ih type1 (retry + 1) 0 h1 (by omega)
            (aboveBound_of_le (generalize_compare hg) g2) (generalize_next hk hg) j r l h hj hr
          have harith : retry + 1 + j = retry + (j + 1) := by omega
          rw [harith] at key
          exact key
      | none =>
        rw [retryLoop_notFound_none fuel hres hg] at hj
        cases j with
        | zero =>
          simp only [List.getElem?_cons_zero, Option.some.injEq] at hj
          subst hj
          simp only [SearchResult.notFound.injEq] at hr
          obtain ⟨_, rfl⟩ := hr
          exact ⟨hk, hhead⟩
        | succ j => simp at hj
    · have hnf' : ∀ l1 h1,
          binarySearch cat type (cat.length + 1) low high ≠ SearchResult.notFound l1 h1 :=
        fun l1 h1 hc => hnf ⟨l1, h1, hc⟩
      rw [retryLoop_fault fuel retry hnf'] at hj
      cases j with
      | zero =>
        simp only [List.getElem?_cons_zero, Option.some.injEq] at hj
        subst hj
        exact absurd hr (hnf' l h)
      | succ j => simp at hj

/-! ### The log of probes -/

/-- The logged inner loop returns what the inner loop returns. -/
theorem binarySearchTrace_result (cat : Catalog) (key : EntityType) :
    ∀ (fuel low high : Nat),
      (binarySearchTrace cat key fuel low high).2 = binarySearch cat key fuel low high := by
  intro fuel
  induction fuel with
  | zero => intro low high; rfl
  | succ fuel ih =>
    intro low high
    rw [binarySearchTrace, binarySearch]
    by_cases hle : low ≤ high
    · simp only [hle, if_true]
      cases hc : cat[sizeAdd low high / 2]? with
      | none => rfl
      | some e =>
        simp only []
        by_cases h1 : DisEntityTypeCompare e.1 key = true
        · simp only [h1, if_true, ih]
        · by_cases h2 : DisEntityTypeCompare key e.1 = true
          · simp only [h1, h2, if_true, Bool.false_eq_true, if_false, ih]
          · simp only [h1, h2, Bool.false_eq_true, if_false]
    · simp only [hle, if_false]

/-- On a catalog that starts with the all-zero entry every probe of a search whose
upper bound is inside the catalog reads inside the catalog, and the branch
`high = mid - 1` is not taken at `mid = 0`. -/
theorem binarySearchTrace_safe (cat : Catalog) (key : EntityType) (hz : ZeroFirst cat)
    (hn : cat.length < 9223372036854775808) :
    ∀ (fuel low high : Nat), high < cat.length →
      ∀ p ∈ (binarySearchTrace cat key fuel low high).1,
        p.mid < cat.length ∧ p.step ≠ ProbeStep.pastEnd ∧
          (p.step = ProbeStep.lowerHigh → 0 < p.mid) := by
  intro fuel
  induction fuel with
  | zero => intro low high _ p hp; simp [binarySearchTrace] at hp
  | succ fuel ih =>
    intro low high hh p hp
    rw [binarySearchTrace] at hp
    by_cases hle : low ≤ high
    · have hmid : sizeAdd low high / 2 = (low + high) / 2 := by
        unfold sizeAdd SIZE_MOD; omega
      simp only [hle, if_true, hmid] at hp
      have hlt : (low + high) / 2 < cat.length := by omega
      obtain ⟨e, he⟩ : ∃ e, cat[(low + high) / 2]? = some e :=
        ⟨cat[(low + high) / 2], List.getElem?_eq_getElem hlt⟩
      simp only [he] at hp
      by_cases h1 : DisEntityTypeCompare e.1 key = true
      · simp only [h1, if_true, List.mem_cons] at hp
        have hadd : sizeAdd ((low + high) / 2) 1 = (low + high) / 2 + 1 := by
          unfold sizeAdd SIZE_MOD; omega
        rw [hadd] at hp
        rcases hp with rfl | hp
        · exact ⟨hlt, by simp, by simp⟩
        · exact ih _ _ hh p hp
      · simp only [h1, Bool.false_eq_true, if_false] at hp
        by_cases h2 : DisEntityTypeCompare key e.1 = true
        · simp only [h2, if_true, List.mem_cons] at hp
          have hpos : 0 < (low + high) / 2 := by
            rcases Nat.eq_zero_or_pos ((low + high) / 2) with h0 | h0
            · rw [h0] at he
              rw [zeroFirst_get hz he, compare_zero_right] at h2
              exact absurd h2 (by simp)
            · exact h0
          have hsub : sizeSub ((low + high) / 2) 1 = (low + high) / 2 - 1 := by
            unfold sizeSub SIZE_MOD; omega
          rw [hsub] at hp
          rcases hp with rfl | hp
          · exact ⟨hlt, by simp, fun _ => hpos⟩
          · exact ih _ _ (by omega) p hp
        · simp only [h2, Bool.false_eq_true, if_false, List.mem_singleton] at hp
          subst hp
          exact ⟨hlt, by simp, by simp⟩
    · simp [hle] at hp

theorem retryLoop_length (cat : Catalog) :
    ∀ (fuel : Nat) (type : EntityType) (retry low high : Nat),
      (retryLoop cat fuel type retry low high).searches.length ≤ fuel := by
  intro fuel
  induction fuel with
  | zero => intro type retry low high; simp [retryLoop]
  | succ fuel ih =>
    intro type retry low high
    rw [retryLoop]
    cases binarySearch cat type (cat.length + 1) low high with
    | found mid t => simp
    | outOfRange mid => simp
    | outOfFuel => simp
    | notFound l h =>
      cases generalize retry type with
      | some t1 =>
        simp only [List.length_cons]
        exact Nat.succ_le_succ (ih t1 (retry + 1) 0 h)
      | none => simp

/-- Every record of a run holds the result of the search it describes. -/
theorem retryLoop_record (cat : Catalog) :
    ∀ (fuel : Nat) (type : EntityType) (retry low high : Nat),
      ∀ r ∈ (retryLoop cat fuel type retry low high).searches,
        r.result = binarySearch cat r.key (cat.length + 1) r.low r.high := by
  intro fuel
  induction fuel with
  | zero => intro type retry low high r hr; simp [retryLoop] at hr
  | succ fuel ih =>
    intro type retry low high r hr
    rw [retryLoop] at hr
    cases hres : binarySearch cat type (cat.length + 1) low high with
    | found mid t =>
      simp only [hres, List.mem_singleton] at hr
      subst hr; exact hres.symm
    | outOfRange mid =>
      simp only [hres, List.mem_singleton] at hr
      subst hr; exact hres.symm
    | outOfFuel =>
      simp only [hres, List.mem_singleton] at hr
      subst hr; exact hres.symm
    | notFound l h =>
      simp only [hres] at hr
      cases hg : generalize retry type with
      | some t1 =>
        simp only [hg, List.mem_cons] at hr
        rcases hr with rfl | hr
        · exact hres.symm
        · exact ih t1 (retry + 1) 0 h r hr
      | none =>
        simp only [hg, List.mem_singleton] at hr
        subst hr; exact hres.symm

/-! ## Further claims about the resolver and the comparators -/

theorem lookupRun_eq_of_ne_nil (cat : Catalog) (d : EntityType) (hne : cat ≠ [])
    (hn : cat.length < 9223372036854775808) :
    lookupRun cat d = retryLoop cat 8 d 0 0 (cat.length - 1) := by
  have hpos : 0 < cat.length := List.length_pos.mpr hne
  unfold lookupRun
  rw [sizeSub_length hpos hn]

/-- C15 (the carried-over upper bound is sound): on every non-empty catalog sorted
ascending under the lexicographic order, whenever the search number `j` of a run of
`TemplateLookup` fails and leaves `high = h`, the key it searched is the key number
`j` of the generalization sequence, and no catalog entry at an index above `h` has a
descriptor equal to that key or to a later key of the sequence. -/
theorem carried_bound_excludes_no_match (cat : Catalog) (d : EntityType) (hne : cat ≠ [])
    (hs : SortedLexLe cat) (hn : cat.length < 9223372036854775808) :
    ∀ j r l h, (lookupRun cat d).searches[j]? = some r →
      r.result = SearchResult.notFound l h →
      (generalizations d)[j]? = some r.key ∧
        ∀ k ∈ (generalizations d).drop j, ∀ i e, cat[i]? = some e → h < i → e.1 ≠ k := by
  intro j r l h hj hr
  have hpos : 0 < cat.length := List.length_pos.mpr hne
  have hinit : AboveBound cat d (cat.length - 1) := by
    intro i e he hi
    have hlt := (List.getElem?_eq_some_iff.mp he).1
    omega
  have key := retryLoop_aboveBound cat d hs hn 8 d 0 0 (cat.length - 1) (by omega) hinit
    (generalizations_head d) j r l h
  rw [← lookupRun_eq_of_ne_nil cat d hne hn, Nat.zero_add] at key
  exact key hj hr

/-- C15 on the two-entry catalog and the key `(1,0,0,0,0,0,0)`: the first search fails
with `high = 0`, and the entry at index 1 equals none of the eight keys. -/
theorem carried_bound_excludes_no_match_witness :
    SortedLexLe munitionCatalog ∧
      (lookupRun munitionCatalog ⟨1, 0, 0, 0, 0, 0, 0⟩).searches[0]? =
        some ⟨⟨1, 0, 0, 0, 0, 0, 0⟩, 0, 1, SearchResult.notFound 1 0⟩ ∧
      (generalizations ⟨1, 0, 0, 0, 0, 0, 0⟩)[0]? = some ⟨1, 0, 0, 0, 0, 0, 0⟩ ∧
      ∀ k ∈ (generalizations ⟨1, 0, 0, 0, 0, 0, 0⟩).drop 0,
        ∀ i e, munitionCatalog[i]? = some e → 0 < i → e.1 ≠ k :=
  ⟨by decide, by decide,
    carried_bound_excludes_no_match munitionCatalog ⟨1, 0, 0, 0, 0, 0, 0⟩ (by decide)
      (by decide) (by decide) 0 ⟨⟨1, 0, 0, 0, 0, 0, 0⟩, 0, 1, SearchResult.notFound 1 0⟩ 1 0
      (by decide) rfl⟩

/-- C17 (the built-in catalog is ordered): in the list `PopulateDisTemplates` builds
from an empty vector, entry 0 is the all-zero descriptor with template
`"DisUnknownEntity"`, and for all positions `i < j` the descriptors `a` at `i` and `b`
at `j` satisfy `a <= b` in the lexicographic order (indeed `a < b`) and
`DisEntityTypeCompare(b, a) = false`. -/
theorem builtin_catalog_is_sorted :
    (PopulateDisTemplates [])[0]? = some (EntityType.zero, "DisUnknownEntity") ∧
      SortedLexLe (PopulateDisTemplates []) ∧
      SortedLex (PopulateDisTemplates []) ∧
      SortedCompare (PopulateDisTemplates []) := by
  decide

/-- C18 (index safety): on every catalog whose entry 0 is the all-zero descriptor,
sorted or not, a run of `TemplateLookup` makes at most eight binary searches and
returns a template; the probe log of each search is that of the search recorded; and
every probe reads an index below the size of the catalog, and none that takes the
branch `high = mid - 1` is at `mid = 0`. -/
theorem lookup_is_index_safe (cat : Catalog) (d : EntityType) (hz : ZeroFirst cat)
    (hn : cat.length < 9223372036854775808) :
    (lookupRun cat d).searches.length ≤ 8 ∧
      (∃ t, TemplateLookup cat d = Outcome.value t) ∧
      (∀ r ∈ (lookupRun cat d).searches,
        (binarySearchTrace cat r.key (cat.length + 1) r.low r.high).2 = r.result) ∧
      ∀ p ∈ lookupProbes cat d,
        p.mid < cat.length ∧ p.step ≠ ProbeStep.pastEnd ∧
          (p.step = ProbeStep.lowerHigh → 0 < p.mid) := by
  have hpos := zeroFirst_pos hz
  have hlt : cat.length - 1 < cat.length := by omega
  have h1 := retryLoop_length cat 8 d 0 0 (cat.length - 1)
  have h2 := retryLoop_record cat 8 d 0 0 (cat.length - 1)
  have h3 := (retryLoop_bounds cat hz hn 8 d 0 0 (cat.length - 1) hlt).2
  rw [← lookupRun_eq cat d hz hn] at h1 h2 h3
  refine ⟨h1, TemplateLookup_value cat d hz hn, ?_, ?_⟩
  · intro r hr
    rw [binarySearchTrace_result, h2 r hr]
  · intro p hp
    unfold lookupProbes at hp
    obtain ⟨r, hr, hpr⟩ := List.mem_flatMap.mp hp
    exact binarySearchTrace_safe cat r.key hz hn _ _ _ (by have := h3 r hr; omega) p hpr

/-- C18 on the built-in catalog and the descriptor of a specific helicopter variant. -/
theorem lookup_is_index_safe_witness :
    ZeroFirst (PopulateDisTemplates []) ∧
      (lookupRun (PopulateDisTemplates []) ⟨1, 2, 225, 20, 2, 9, 1⟩).searches.length ≤ 8 ∧
      (∃ t, TemplateLookup (PopulateDisTemplates []) ⟨1, 2, 225, 20, 2, 9, 1⟩ =
        Outcome.value t) ∧
      (∀ r ∈ (lookupRun (PopulateDisTemplates []) ⟨1, 2, 225, 20, 2, 9, 1⟩).searches,
        (binarySearchTrace (PopulateDisTemplates []) r.key
          ((PopulateDisTemplates []).length + 1) r.low r.high).2 = r.result) ∧
      ∀ p ∈ lookupProbes (PopulateDisTemplates []) ⟨1, 2, 225, 20, 2, 9, 1⟩,
        p.mid < (PopulateDisTemplates []).length ∧ p.step ≠ ProbeStep.pastEnd ∧
          (p.step = ProbeStep.lowerHigh → 0 < p.mid) :=
  ⟨by decide,
    lookup_is_index_safe (PopulateDisTemplates []) ⟨1, 2, 225, 20, 2, 9, 1⟩ (by decide)
      (by decide)⟩

/-- C19 (soundness): on every catalog whose entry 0 is the all-zero descriptor,
`TemplateLookup d` returns the template of a catalog entry whose descriptor is one of
the eight keys `d0 .. d7` of `d`, or else the template at index 0; so it never returns
the template of an entry found under a descriptor outside that sequence. -/
theorem lookup_returns_a_generalization (cat : Catalog) (d : EntityType) (hz : ZeroFirst cat)
    (hn : cat.length < 9223372036854775808) :
    ∃ i e, cat[i]? = some e ∧ TemplateLookup cat d = Outcome.value e.2 ∧
      (e.1 ∈ generalizations d ∨ i = 0) := by
  obtain ⟨i, e, h1, h2, h3, _, _⟩ := lookupRun_outcome cat d hz hn
  exact ⟨i, e, h1, TemplateLookup_of_outcome h2, h3.symm⟩

/-- C19 on the resolver example of the specification. -/
theorem lookup_returns_a_generalization_witness :
    ZeroFirst jaguarCatalog ∧
      ∃ i e, jaguarCatalog[i]? = some e ∧
        TemplateLookup jaguarCatalog ⟨1, 2, 225, 20, 2, 10, 0⟩ = Outcome.value e.2 ∧
        (e.1 ∈ generalizations ⟨1, 2, 225, 20, 2, 10, 0⟩ ∨ i = 0) :=
  ⟨by decide,
    lookup_returns_a_generalization jaguarCatalog ⟨1, 2, 225, 20, 2, 10, 0⟩ (by decide)
      (by decide)⟩

/-- C20 (the key order of the entity table is a strict weak ordering), evaluated on the
code: `DisEntityIDCompare` holds of `(0,1,0)` and `(1,0,0)` in both directions, so it
is not asymmetric; and since it does not hold of `(0,1,0)` and itself, it is not
transitive either. -/
theorem idCompare_holds_both_ways :
    DisEntityIDCompare ⟨0, 1, 0⟩ ⟨1, 0, 0⟩ = true ∧
      DisEntityIDCompare ⟨1, 0, 0⟩ ⟨0, 1, 0⟩ = true ∧
      DisEntityIDCompare ⟨0, 1, 0⟩ ⟨0, 1, 0⟩ = false := by
  decide

/-! ### The table in memory: what `insert` and an assignment change -/

namespace RbTree

theorem id_eq_of_compare_false {a b : EntityID} (h1 : DisEntityIDCompare a b = false)
    (h2 : DisEntityIDCompare b a = false) : a = b := by
  simp only [DisEntityIDCompare, Bool.or_eq_false_iff, decide_eq_false_iff_not, not_lt] at h1 h2
  obtain ⟨⟨g1, g2⟩, g3⟩ := h1
  obtain ⟨⟨g4, g5⟩, g6⟩ := h2
  cases a
  cases b
  simp only [EntityID.mk.injEq]
  exact ⟨Nat.le_antisymm g4 g1, Nat.le_antisymm g5 g2, Nat.le_antisymm g6 g3⟩

theorem M_lower_bound_spec (t : RbTree) (k : EntityID) : ∀ (n : Nat) (x y j : Ptr),
    (y = Ptr.header ∨ ∃ key, t.S_key y = some key ∧ DisEntityIDCompare key k = false) →
    M_lower_bound t k n x y = some j →
    (j = Ptr.header ∨ ∃ key, t.S_key j = some key ∧ DisEntityIDCompare key k = false) := by
  intro n
  induction n with
  | zero => intro x y j _ h; simp [M_lower_bound] at h
  | succ n ih =>
    intro x y j hy h
    rw [M_lower_bound] at h
    by_cases hx : x = Ptr.null
    · rw [if_pos hx] at h
      simp only [Option.some.injEq] at h
      subst h
      exact hy
    · rw [if_neg hx] at h
      cases hk : t.S_key x with
      | none => simp [hk] at h
      | some key =>
        cases hb : t.links.base x with
        | none => simp [hk, hb] at h
        | some b =>
          simp only [hk, hb] at h
          by_cases hc : DisEntityIDCompare key k = true
          · simp only [hc, Bool.not_true, Bool.false_eq_true, if_false] at h
            exact ih _ _ _ hy h
          · simp only [Bool.not_eq_true] at hc
            simp only [hc, Bool.not_false, if_true] at h
            exact ih _ _ _ (Or.inr ⟨key, hk, hc⟩) h

/-- The member `find` returns `end()` or a node that holds the key looked for. -/
theorem find_key {t : RbTree} {k : EntityID} {j : Nat} (h : t.find k = some (Ptr.node j)) :
    ∃ x, t.pairs[j]? = some x ∧ x.1 = k := by
  unfold find at h
  cases hl : t.lower_bound k with
  | none => simp [hl] at h
  | some p =>
    simp only [hl] at h
    by_cases hp : p = Ptr.header
    · rw [if_pos hp] at h
      simp at h
    · rw [if_neg hp] at h
      rcases M_lower_bound_spec t k _ _ _ _ (Or.inl rfl) hl with h1 | ⟨key, h1, h2⟩
      · exact absurd h1 hp
      · simp only [h1] at h
        by_cases hc : DisEntityIDCompare k key = true
        · rw [if_pos hc] at h
          simp at h
        · rw [if_neg hc] at h
          simp only [Option.some.injEq] at h
          subst h
          simp only [S_key, Option.map_eq_some'] at h1
          obtain ⟨x, h3, h4⟩ := h1
          refine ⟨x, h3, ?_⟩
          rw [h4]
          exact id_eq_of_compare_false h2 (by simpa using hc)

end RbTree

/-! ### The client on the tree in memory: what `Process` and the loop leave alone -/

namespace Rb

theorem nodesDistinct_init (cat : Catalog) : HandlesDistinct (DisClient.init cat) := by
  constructor <;> simp [handles, DisClient.init, RbTree.empty]

/-- A PDU whose identifier `find` locates is assigned to a node that holds this
identifier. -/
theorem entityOf_of_found {c : DisClient} {espdu : EntityStatePdu} {j : Nat}
    (h : c.mEntities.find espdu.entityID = some (Ptr.node j)) :
    entityOf c espdu = some (Ptr.node j) ∧
      ∃ x, c.mEntities.pairs[j]? = some x ∧ x.1 = espdu.entityID := by
  refine ⟨?_, RbTree.find_key h⟩
  simp [entityOf, locateEntity, h]

end Rb

/-! ## The claims that depend on where the table entries lie in memory -/

/-- The PDUs for `(0,1,0)`, `(1,0,0)` and `(1,0,0)` on the tree in memory: the
numbers of world entities and the identifiers in iteration order are those the search
tree gives; `size()` is 2 after the first two PDUs and 3 after the third, whose node
the iteration does not reach. -/
theorem repeated_identifier_in_memory :
    ((Rb.dispatch (Rb.DisClient.init (PopulateDisTemplates []))
          [sighting ⟨0, 1, 0⟩ ⟨1, 2, 3⟩, sighting ⟨1, 0, 0⟩ ⟨4, 5, 6⟩]).map
        (fun c => (c.world.count, c.mEntities.nodeCount, Rb.visited c)) =
      some (2, 2, some [(⟨1, 0, 0⟩, 1), (⟨0, 1, 0⟩, 0)])) ∧
    ((Rb.dispatch (Rb.DisClient.init (PopulateDisTemplates []))
          [sighting ⟨0, 1, 0⟩ ⟨1, 2, 3⟩, sighting ⟨1, 0, 0⟩ ⟨4, 5, 6⟩,
            sighting ⟨1, 0, 0⟩ ⟨4, 5, 7⟩]).map
        (fun c => (c.world.count, c.mEntities.nodeCount, Rb.visited c)) =
      some (3, 3, some [(⟨1, 0, 0⟩, 1), (⟨0, 1, 0⟩, 0)])) :=
  ⟨rfl, rfl⟩

/-- C8 (fresh-update precedence), evaluated on the code. Tick 1 brings PDUs for
`(0,1,0)` and for `(1,0,0)` (model `FPW`, velocity `(1,0,0)`, location `(10,0,0)`);
tick 2, with `dt = 1`, brings a PDU for `(1,0,0)` with location `(20,0,0)`. `find`
misses the entry of `(1,0,0)`, so the PDU goes to a third node and a third world
entity; the entry of `(1,0,0)` that the loop visits is not flagged, and the loop
writes the extrapolated position `(11,0,0)` to its world entity 1. -/
theorem fresh_update_misses_the_tracked_entity :
    (Rb.run (Rb.DisClient.init (PopulateDisTemplates []))
        [(1, [sighting ⟨0, 1, 0⟩ ⟨1, 2, 3⟩,
              report ⟨1, 0, 0⟩ DeadReckoningModel.FPW ⟨1, 0, 0⟩ Vector3.zero ⟨10, 0, 0⟩]),
         (1, [report ⟨1, 0, 0⟩ DeadReckoningModel.FPW ⟨1, 0, 0⟩ Vector3.zero
              ⟨20, 0, 0⟩])]).map Rb.snapshot =
      some (3, some [(⟨1, 0, 0⟩, 1), (⟨0, 1, 0⟩, 0)],
        [(⟨0, 1, 0⟩, ⟨0, false, 0, Vector3.zero, Vector3.zero, Vector3.zero⟩),
         (⟨1, 0, 0⟩, ⟨1, false, DeadReckoningModel.FPW, ⟨1, 0, 0⟩, Vector3.zero, Vector3.zero⟩),
         (⟨1, 0, 0⟩, ⟨2, true, DeadReckoningModel.FPW, ⟨1, 0, 0⟩, Vector3.zero, Vector3.zero⟩)],
        [some ⟨1, 2, 3⟩, some ⟨11, 0, 0⟩, some ⟨20, 0, 0⟩]) := by
  have h : (Rb.run (Rb.DisClient.init (PopulateDisTemplates []))
        [(1, [sighting ⟨0, 1, 0⟩ ⟨1, 2, 3⟩,
              report ⟨1, 0, 0⟩ DeadReckoningModel.FPW ⟨1, 0, 0⟩ Vector3.zero ⟨10, 0, 0⟩]),
         (1, [report ⟨1, 0, 0⟩ DeadReckoningModel.FPW ⟨1, 0, 0⟩ Vector3.zero
              ⟨20, 0, 0⟩])]).map Rb.snapshot =
      some (3, some [(⟨1, 0, 0⟩, 1), (⟨0, 1, 0⟩, 0)],
        [(⟨0, 1, 0⟩, ⟨0, false, 0, Vector3.zero, Vector3.zero, Vector3.zero⟩),
         (⟨1, 0, 0⟩, ⟨1, false, DeadReckoningModel.FPW, ⟨1, 0, 0⟩, Vector3.zero, Vector3.zero⟩),
         (⟨1, 0, 0⟩, ⟨2, true, DeadReckoningModel.FPW, ⟨1, 0, 0⟩, Vector3.zero, Vector3.zero⟩)],
        [some ⟨1, 2, 3⟩, some ⟨10 + 1 * 1, 0 + 0 * 1, 0 + 0 * 1⟩, some ⟨20, 0, 0⟩]) := rfl
  rw [h]
  norm_num

/-- C9 (velocity models), evaluated on the code. Tick 1 brings PDUs for `(2,0,0)`,
`(0,1,0)` and `(1,0,1)`, the last with model `FVW`, velocity `(10,0,0)`, acceleration
`(0,0,-9.8)` and location `(0,0,0)`. The table then holds three entries (`size()` is
3), but the node of `(1,0,1)` was linked over the link from `(2,0,0)` to `(0,1,0)`
and the iteration visits only `(0,1,0)` and `(2,0,0)`. In tick 2 no PDU arrives and
`update(1)` leaves the world entity of `(1,0,1)` at `(0,0,0)`; the formula gives
`(10, 0, -4.9)`. -/
theorem velocity_model_entity_is_left_behind :
    ((Rb.run (Rb.DisClient.init (PopulateDisTemplates []))
        [(1, [sighting ⟨2, 0, 0⟩ ⟨1, 1, 1⟩, sighting ⟨0, 1, 0⟩ ⟨2, 2, 2⟩,
              report ⟨1, 0, 1⟩ DeadReckoningModel.FVW ⟨10, 0, 0⟩ ⟨0, 0, -49 / 5⟩
                ⟨0, 0, 0⟩])]).map Rb.snapshot =
      some (3, some [(⟨0, 1, 0⟩, 1), (⟨2, 0, 0⟩, 0)],
        [(⟨2, 0, 0⟩, ⟨0, false, 0, Vector3.zero, Vector3.zero, Vector3.zero⟩),
         (⟨0, 1, 0⟩, ⟨1, false, 0, Vector3.zero, Vector3.zero, Vector3.zero⟩),
         (⟨1, 0, 1⟩, ⟨2, true, DeadReckoningModel.FVW, ⟨10, 0, 0⟩, ⟨0, 0, -49 / 5⟩,
            Vector3.zero⟩)],
        [some ⟨1, 1, 1⟩, some ⟨2, 2, 2⟩, some ⟨0, 0, 0⟩])) ∧
    ((Rb.run (Rb.DisClient.init (PopulateDisTemplates []))
        [(1, [sighting ⟨2, 0, 0⟩ ⟨1, 1, 1⟩, sighting ⟨0, 1, 0⟩ ⟨2, 2, 2⟩,
              report ⟨1, 0, 1⟩ DeadReckoningModel.FVW ⟨10, 0, 0⟩ ⟨0, 0, -49 / 5⟩
                ⟨0, 0, 0⟩]),
         (1, [])]).map (fun c => getPosition c.world 2) = some (some ⟨0, 0, 0⟩)) :=
  ⟨rfl, rfl⟩

/-- C10 (position models), evaluated on the code. As for C9, with model `RPW`,
velocity `(3,-2,1)` and location `(1,1,1)` in the PDU for `(1,0,1)`: in tick 2 no PDU
arrives and `update(2)` leaves the world entity of `(1,0,1)` at `(1,1,1)`; the
formula gives `(7,-3,3)`. -/
theorem position_model_entity_is_left_behind :
    ((Rb.run (Rb.DisClient.init (PopulateDisTemplates []))
        [(1, [sighting ⟨2, 0, 0⟩ ⟨1, 1, 1⟩, sighting ⟨0, 1, 0⟩ ⟨2, 2, 2⟩,
              report ⟨1, 0, 1⟩ DeadReckoningModel.RPW ⟨3, -2, 1⟩ ⟨5, 5, 5⟩
                ⟨1, 1, 1⟩])]).map Rb.snapshot =
      some (3, some [(⟨0, 1, 0⟩, 1), (⟨2, 0, 0⟩, 0)],
        [(⟨2, 0, 0⟩, ⟨0, false, 0, Vector3.zero, Vector3.zero, Vector3.zero⟩),
         (⟨0, 1, 0⟩, ⟨1, false, 0, Vector3.zero, Vector3.zero, Vector3.zero⟩),
         (⟨1, 0, 1⟩, ⟨2, true, DeadReckoningModel.RPW, ⟨3, -2, 1⟩, ⟨5, 5, 5⟩,
            Vector3.zero⟩)],
        [some ⟨1, 1, 1⟩, some ⟨2, 2, 2⟩, some ⟨1, 1, 1⟩])) ∧
    ((Rb.run (Rb.DisClient.init (PopulateDisTemplates []))
        [(1, [sighting ⟨2, 0, 0⟩ ⟨1, 1, 1⟩, sighting ⟨0, 1, 0⟩ ⟨2, 2, 2⟩,
              report ⟨1, 0, 1⟩ DeadReckoningModel.RPW ⟨3, -2, 1⟩ ⟨5, 5, 5⟩
                ⟨1, 1, 1⟩]),
         (2, [])]).map (fun c => getPosition c.world 2) = some (some ⟨1, 1, 1⟩)) :=
  ⟨rfl, rfl⟩

/-- C13 (the flag is cleared for every entity), evaluated on the code: after
`update` with PDUs for `(2,0,0)`, `(0,1,0)` and `(1,0,1)` the table holds three
entries (`size()` is 3), the iteration has visited `(0,1,0)` and `(2,0,0)`, and the
entry of `(1,0,1)` still has `updatedThisFrame = true`. -/
theorem flag_stays_set_outside_the_iteration :
    (Rb.update 1 [sighting ⟨2, 0, 0⟩ ⟨1, 1, 1⟩, sighting ⟨0, 1, 0⟩ ⟨2, 2, 2⟩,
        sighting ⟨1, 0, 1⟩ ⟨3, 3, 3⟩] (Rb.DisClient.init (PopulateDisTemplates []))).map
      Rb.snapshot =
    some (3, some [(⟨0, 1, 0⟩, 1), (⟨2, 0, 0⟩, 0)],
      [(⟨2, 0, 0⟩, ⟨0, false, 0, Vector3.zero, Vector3.zero, Vector3.zero⟩),
       (⟨0, 1, 0⟩, ⟨1, false, 0, Vector3.zero, Vector3.zero, Vector3.zero⟩),
       (⟨1, 0, 1⟩, ⟨2, true, 0, Vector3.zero, Vector3.zero, Vector3.zero⟩)],
      [some ⟨1, 1, 1⟩, some ⟨2, 2, 2⟩, some ⟨3, 3, 3⟩]) :=
  rfl

/-- C14 (folding a PDU), evaluated on the code: after PDUs for `(0,1,0)` and
`(1,0,0)` (model `FPW`, velocity `(1,0,0)`, location `(10,0,0)`), a second PDU for
`(1,0,0)` with model `FVW`, velocity `(7,0,0)` and location `(20,0,0)` is folded into
a third node bound to a third world entity. The entry of `(1,0,0)` that the iteration
visits keeps the model, the velocity and the position of the first PDU, and `find`
locates neither node of `(1,0,0)`. -/
theorem repeated_identifier_is_folded_into_a_new_node :
    ((Rb.dispatch (Rb.DisClient.init (PopulateDisTemplates []))
        [sighting ⟨0, 1, 0⟩ ⟨1, 2, 3⟩,
         report ⟨1, 0, 0⟩ DeadReckoningModel.FPW ⟨1, 0, 0⟩ Vector3.zero ⟨10, 0, 0⟩,
         report ⟨1, 0, 0⟩ DeadReckoningModel.FVW ⟨7, 0, 0⟩ Vector3.zero ⟨20, 0, 0⟩]).map
        Rb.snapshot =
      some (3, some [(⟨1, 0, 0⟩, 1), (⟨0, 1, 0⟩, 0)],
        [(⟨0, 1, 0⟩, ⟨0, true, 0, Vector3.zero, Vector3.zero, Vector3.zero⟩),
         (⟨1, 0, 0⟩, ⟨1, true, DeadReckoningModel.FPW, ⟨1, 0, 0⟩, Vector3.zero, Vector3.zero⟩),
         (⟨1, 0, 0⟩, ⟨2, true, DeadReckoningModel.FVW, ⟨7, 0, 0⟩, Vector3.zero, Vector3.zero⟩)],
        [some ⟨1, 2, 3⟩, some ⟨10, 0, 0⟩, some ⟨20, 0, 0⟩])) ∧
    ((Rb.dispatch (Rb.DisClient.init (PopulateDisTemplates []))
        [sighting ⟨0, 1, 0⟩ ⟨1, 2, 3⟩,
         report ⟨1, 0, 0⟩ DeadReckoningModel.FPW ⟨1, 0, 0⟩ Vector3.zero ⟨10, 0, 0⟩,
         report ⟨1, 0, 0⟩ DeadReckoningModel.FVW ⟨7, 0, 0⟩ Vector3.zero ⟨20, 0, 0⟩]).map
        (fun c => c.mEntities.find ⟨1, 0, 0⟩) = some (some Ptr.header)) :=
  ⟨rfl, rfl⟩

/-- An entry can stay out of the iteration while `find` still locates it. Tick 1
brings PDUs for `(0,2,0)`, `(0,0,0)`, `(0,0,1)` and `(0,1,0)`, tick 2 a second PDU
for `(0,0,1)` (model `FVW`, velocity `(10,0,0)`, location `(5,5,5)`), which `find`
locates and `Process` folds into the third node; tick 3 brings none. The iteration
visits `(0,0,0)` and `(0,2,0)` only: after `update(1)` of tick 3 the entry of
`(0,0,1)` is still flagged and its world entity is still at `(5,5,5)`. -/
theorem located_entity_is_not_visited :
    (Rb.run (Rb.DisClient.init (PopulateDisTemplates []))
        [(1, [sighting ⟨0, 2, 0⟩ ⟨1, 1, 1⟩, sighting ⟨0, 0, 0⟩ ⟨2, 2, 2⟩,
              report ⟨0, 0, 1⟩ DeadReckoningModel.FVW ⟨10, 0, 0⟩ ⟨0, 0, -49 / 5⟩ ⟨0, 0, 0⟩,
              sighting ⟨0, 1, 0⟩ ⟨4, 4, 4⟩]),
         (1, [report ⟨0, 0, 1⟩ DeadReckoningModel.FVW ⟨10, 0, 0⟩ ⟨0, 0, -49 / 5⟩
              ⟨5, 5, 5⟩]),
         (1, [])]).map
      (fun c => (c.mEntities.nodeCount, c.world.count, Rb.visited c,
        c.mEntities.find ⟨0, 0, 1⟩, c.mEntities.pairs[2]?, getPosition c.world 2)) =
    some (4, 4, some [(⟨0, 0, 0⟩, 1), (⟨0, 2, 0⟩, 0)], some (Ptr.node 2),
      some (⟨0, 0, 1⟩, ⟨2, true, DeadReckoningModel.FVW, ⟨10, 0, 0⟩, ⟨0, 0, -49 / 5⟩,
        Vector3.zero⟩),
      some ⟨5, 5, 5⟩) :=
  rfl

end Skybolt
